import Mathlib

/-!
# gr-mixalot : FLEX / POCSAG batch encoder (`lib/flexencode_impl.cc`)

Shallow embedding of the word builders, the bit queue and the batch encoders.
Machine words (`uint32_t`) are natural numbers below `2^32`; every operation that
can leave that range in C++ is truncated explicitly. A failing `assert` and a thrown
exception are both an `error`; assertions are taken to be enabled. The functions of
`utils.h` are not among the sources: `encodeword` and the message encoders are
parameters, `reverse_bits32` and `get_vec` are modelled from the specification.
-/

namespace Mixalot

/-! ## 32-bit primitives -/

/-- Truncation of a natural number to an unsigned 32-bit word. -/
def u32 (x : Nat) : Nat := x % 2 ^ 32

/-- Bitwise complement of a 32-bit word: the C++ operator `~` on `uint32_t`. -/
def not32 (x : Nat) : Nat := 0xFFFFFFFF - u32 x

/-- Left shift on `uint32_t`: the bits shifted past bit 31 are lost. -/
def shl32 (x k : Nat) : Nat := u32 (x <<< k)

/-- The nibble sum of `add_flex_checksum` (source lines 59-64), before complementing. -/
def flex_nibble_sum (dw : Nat) : Nat :=
  u32 (((dw >>> 4) &&& 0xf)
    + ((dw >>> 8) &&& 0xf)
    + ((dw >>> 12) &&& 0xf)
    + ((dw >>> 16) &&& 0xf)
    + ((dw >>> 20) &&& 1))

/-- Source `add_flex_checksum(uint32_t &dw)`: the updated value of `dw`. -/
def add_flex_checksum (dw : Nat) : Nat :=
  let cksum := flex_nibble_sum dw
  let cksum := not32 cksum
  dw ||| (cksum &&& 0xf)

/-! ## External collaborators (`utils.h`) -/

/-- Reversal of the low `n` bits of `x`: bit `i` moves to bit `n - 1 - i`. -/
def rev_bits : Nat → Nat → Nat
  | 0, _ => 0
  | n + 1, x => 2 ^ n * (x % 2) + rev_bits n (x / 2)

/-- Modelled from the spec: `reverse_bits32` is declared in `utils.h`, which is not among
the sources; the spec (section 4.1) says it "reverses bit order of a 32-bit value
(bit 0 ↔ bit 31, etc.)". -/
def reverse_bits32 (x : Nat) : Nat := rev_bits 32 x

/-- Modelled from the spec: `get_vec` is declared in `utils.h`, which is not among the
sources; the spec (section 4.3) says the fixed sync patterns are "literal bit vectors",
so the character `1` is a set bit and any other character a clear bit, in string order. -/
def get_vec (s : String) : List Bool := s.toList.map (fun c => c == '1')

/-- The remaining functions of `utils.h` used by the encoder. Their bodies are not among
the sources, so they are parameters of every definition that calls them. -/
structure Utils where
  /-- The FEC primitive `uint32_t encodeword(uint32_t)`. -/
  encodeword : Nat → Nat
  /-- Words that `make_numeric_message(message, msgwords)` leaves in an empty `msgwords`. -/
  make_numeric_message : String → List Nat
  /-- Words that `make_alpha_message(message, msgwords)` leaves in an empty `msgwords`. -/
  make_alpha_message : String → List Nat

/-- The contract of `encodeword` that `queue_batch` asserts at source line 229: the
21 data bits (bits 31..11) of the argument are the 21 top bits of the codeword. -/
def EncodewordKeepsData (encodeword : Nat → Nat) : Prop :=
  ∀ x, x < 2 ^ 32 → encodeword x &&& 0xFFFFF800 = x &&& 0xFFFFF800

/-! ## Errors and encoder state -/

/-- The ways in which the code of `flexencode_impl.cc` fails. -/
inductive error where
  /-- Source line 126: `assert(address >= 32769 && address <= 1966080)`. -/
  | short_address_out_of_range
  /-- Source line 220: `throw std::runtime_error("Invalid message type specified.")`. -/
  | invalid_message_type
  /-- Source line 229: `assert((addrword & 0xFFFFF800) == addrtemp)`. -/
  | address_word_check
  /-- Source line 286: the symbol rate is not evenly divisible by the baud rate. -/
  | rate_not_divisible
  deriving DecidableEq, Repr

/-- The enumeration `msgtype_t`; a C++ enumeration variable can hold values that are none
of its enumerators, which is what the `default:` branch of `queue_batch` handles. -/
inductive msgtype_t where
  | Numeric
  | Alpha
  | unknown (v : Nat)
  deriving DecidableEq, Repr

/-- The data members of `flexencode_impl`; `d_bitqueue` is the `std::queue<bool>`, front
of the queue first. -/
structure flexencode_impl where
  d_baudrate : Nat
  d_capcode : Nat
  d_msgtype : msgtype_t
  d_message : String
  d_symrate : Nat
  d_bitqueue : List Bool
  deriving DecidableEq, Repr

/-- Result of a member function that may fail: the error raised (if any) and the state
of the object at that moment. -/
abbrev Outcome := Option error × flexencode_impl

/-- Sequencing of two steps of a member function: an error raised by the first step ends
the run with the state of that moment, as a C++ exception or a failed `assert` does. -/
def and_then (r : Outcome) (next : flexencode_impl → Outcome) : Outcome :=
  match r with
  | (some e, st) => (some e, st)
  | (none, st) => next st

/-! ## Word builders -/

/-- Source `make_fiw`: the checksummed data word, before reversal and encoding. -/
def fiw_dw (cycle frame roaming repeat_ t : Nat) : Nat :=
  let dw := 0
  let dw := dw ||| shl32 (cycle &&& 0xf) 4
  let dw := dw ||| shl32 (frame &&& 0x7f) 8
  let dw := dw ||| shl32 (roaming &&& 1) 15
  let dw := dw ||| shl32 (repeat_ &&& 1) 16
  let dw := dw ||| shl32 (t &&& 0xf) 17
  add_flex_checksum dw

/-- Source `make_fiw(cycle, frame, roaming, repeat, t)`. -/
def make_fiw (u : Utils) (cycle frame roaming repeat_ t : Nat) : Nat :=
  u.encodeword (reverse_bits32 (fiw_dw cycle frame roaming repeat_ t))

/-- Source `make_biw1`: the checksummed data word, before reversal and encoding. -/
def biw1_dw (priority blockinfo vectorstart carryon collapse : Nat) : Nat :=
  let dw := 0
  let dw := dw ||| shl32 (priority &&& 0xf) 4
  let dw := dw ||| shl32 (blockinfo &&& 0x3) 8
  let dw := dw ||| shl32 (vectorstart &&& 0x3f) 10
  let dw := dw ||| shl32 (carryon &&& 0x3) 16
  let dw := dw ||| shl32 (collapse &&& 0x7) 18
  add_flex_checksum dw

/-- Source `make_biw1(priority, blockinfo, vectorstart, carryon, collapse)`; the
diagnostic printing has no effect on the value. -/
def make_biw1 (u : Utils) (priority blockinfo vectorstart carryon collapse : Nat) : Nat :=
  u.encodeword (reverse_bits32 (biw1_dw priority blockinfo vectorstart carryon collapse))

/-- Source `make_short_address(address)`; the `assert` is the failure. -/
def make_short_address (u : Utils) (address : Nat) : Except error Nat :=
  if address ≥ 32769 ∧ address ≤ 1966080 then
    let dw := 0
    let dw := dw ||| (address &&& 0x1FFFFF)
    .ok (u.encodeword (reverse_bits32 dw))
  else
    .error .short_address_out_of_range

/-- Source `make_numeric_vector`: the checksummed data word, before reversal and
encoding. -/
def numeric_vector_dw (vector_type message_start nwords cksum : Nat) : Nat :=
  let dw := 0
  let dw := dw ||| shl32 (vector_type &&& 0x7) 4
  let dw := dw ||| shl32 (message_start &&& 0x7f) 7
  let dw := dw ||| shl32 (nwords &&& 0x7) 14
  let dw := dw ||| shl32 (cksum &&& 0xf) 17
  add_flex_checksum dw

/-- Source `make_numeric_vector(vector_type, message_start, nwords, cksum)`. -/
def make_numeric_vector (u : Utils) (vector_type message_start nwords cksum : Nat) : Nat :=
  u.encodeword (reverse_bits32 (numeric_vector_dw vector_type message_start nwords cksum))

/-! ## Bit queue -/

/-- The call `d_bitqueue.push(bit)`. -/
def push (st : flexencode_impl) (bit : Bool) : flexencode_impl :=
  { st with d_bitqueue := st.d_bitqueue ++ [bit] }

/-- The loop of `queuebit`: `n` more pushes of `bit`. -/
def queuebit_loop : Nat → Bool → flexencode_impl → flexencode_impl
  | 0, _, st => st
  | n + 1, bit, st => queuebit_loop n bit (push st bit)

/-- Source `flexencode_impl::queuebit(bool bit)`. The quotient is the unsigned division
of C++; for `d_baudrate = 0`, where that division is undefined, it is `0` here. -/
def queuebit (st : flexencode_impl) (bit : Bool) : flexencode_impl :=
  let interp := st.d_symrate / st.d_baudrate
  queuebit_loop interp bit st

/-- Source `flexencode_impl::queue(shared_ptr<bvec>)`: every element in index order. -/
def queue_bvec (st : flexencode_impl) : List Bool → flexencode_impl
  | [] => st
  | b :: bs => queue_bvec (queuebit st b) bs

/-- The loop of `queue(uint32_t val)`: `n` more iterations. -/
def queue_u32_loop : Nat → Nat → flexencode_impl → flexencode_impl
  | 0, _, st => st
  | n + 1, val, st =>
    queue_u32_loop n (shl32 val 1)
      (queuebit st (if val &&& 0x80000000 = 0x80000000 then true else false))

/-- Source `flexencode_impl::queue(uint32_t val)`. -/
def queue_u32 (st : flexencode_impl) (val : Nat) : flexencode_impl :=
  queue_u32_loop 32 val st

/-! ## FLEX batch encoder -/

/-- The static bit vector `bit_sync_1` of `queue_flex_batch`. -/
def bit_sync_1 : List Bool := get_vec "10101010101010101010101010101010"

/-- The static bit vector `a1` of `queue_flex_batch`. -/
def a1 : List Bool := get_vec "01111000111100110101100100111001"

/-- The static bit vector `b` of `queue_flex_batch`. -/
def b : List Bool := get_vec "0101010101010101"

/-- The static bit vector `a1_inv` of `queue_flex_batch`. -/
def a1_inv : List Bool := get_vec "10000111000011001010011011000110"

/-- The static bit vector `cblock` of `queue_flex_batch`. -/
def cblock : List Bool := get_vec "1010111011011000010001010001001001111011"

/-- The message word `msgx` of a block before the checksum bits are or-ed in
(source line 179). -/
def flex_msgx0 : Nat := (0x6 <<< 2) ||| (0x9 <<< 6) ||| (0xc <<< 10) ||| (0xc <<< 14)

/-- The value `msg_checksum` of a block (source lines 180-185). -/
def flex_msg_checksum : Nat :=
  let msgx := flex_msgx0
  let binsum := u32 ((msgx &&& 0xff) + ((msgx >>> 8) &&& 0xff) + ((msgx >>> 16) &&& 0x1f))
  let binsum := binsum &&& 0xff
  let tempsum := u32 ((binsum &&& 0x1f) + ((binsum >>> 6) &&& 0x3))
  not32 tempsum

/-- The message word `msgx` of a block after source line 187. -/
def flex_msgx : Nat := flex_msgx0 ||| ((flex_msg_checksum >>> 4) &&& 0x3)

/-- One iteration of the inner loop of `queue_flex_batch` (source lines 172-197). -/
def flex_block (u : Utils) (st : flexencode_impl) : Outcome :=
  let biw1 := make_biw1 u 0 0 2 0 0
  match make_short_address u 1337331 with
  | .error e => (some e, st)
  | .ok addr1 =>
    let st := queue_u32 st biw1
    let st := queue_u32 st addr1
    let msg_checksum := flex_msg_checksum
    let msgx := flex_msgx
    let encoded_msg := u.encodeword (reverse_bits32 msgx)
    let st := queue_u32 st (make_numeric_vector u 3 3 0 (msg_checksum &&& 0xf))
    let st := queue_u32 st encoded_msg
    let st := queue_bvec st bit_sync_1
    let st := queue_bvec st bit_sync_1
    let st := queue_bvec st bit_sync_1
    let st := queue_bvec st bit_sync_1
    (none, st)

/-- The inner loop of `queue_flex_batch`: `n` more blocks. -/
def flex_blocks (u : Utils) : Nat → flexencode_impl → Outcome
  | 0, st => (none, st)
  | n + 1, st => and_then (flex_block u st) (fun st => flex_blocks u n st)

/-- One iteration of the outer loop of `queue_flex_batch` (source lines 162-198). -/
def flex_frame (u : Utils) (frame : Nat) (st : flexencode_impl) : Outcome :=
  let fiw := make_fiw u 0 frame 0 0 0x0
  let st := queue_bvec st bit_sync_1
  let st := queue_bvec st a1
  let st := queue_bvec st b
  let st := queue_bvec st a1_inv
  let st := queue_u32 st fiw
  let st := queue_bvec st cblock
  flex_blocks u 11 st

/-- The outer loop of `queue_flex_batch`: `n` more frames, starting with number `frame`. -/
def flex_frames (u : Utils) : Nat → Nat → flexencode_impl → Outcome
  | 0, _, st => (none, st)
  | n + 1, frame, st =>
    and_then (flex_frame u frame st) (fun st => flex_frames u n (frame + 1) st)

/-- Source `flexencode_impl::queue_flex_batch()`. -/
def queue_flex_batch (u : Utils) (st : flexencode_impl) : Outcome :=
  flex_frames u 10 0 st

/-! ## POCSAG batch encoder -/

/-- Source `#define POCSAG_SYNCWORD`. -/
def POCSAG_SYNCWORD : Nat := 0x7CD215D8

/-- Source `#define POCSAG_IDLEWORD`. -/
def POCSAG_IDLEWORD : Nat := 0x7A89C197

/-- The static bit vector `preamble` of `queue_batch`. -/
def preamble : List Bool := get_vec "101010101010101010101010101010101010101010101010101010101010101010101010101010101010101010101010101010101010101010101010101010101010101010101010101010101010101010101010101010101010101010101010101010101010101010101010101010101010101010101010101010101010101010101010101010101010101010101010101010101010101010101010101010101010101010101010101010101010101010101010101010101010101010101010101010101010101010101010101010101010101010101010101010101010101010101010101010101010101010101010101010101010101010101010101010101010101010101010101010101010101010101010101010101010101010101010"

/-- The unencoded address word `addrtemp` of `queue_batch` (source line 225). -/
def pocsag_addrtemp (d_capcode functionbits : Nat) : Nat :=
  shl32 (d_capcode >>> 3) 13 ||| shl32 (functionbits &&& 3) 11

/-- The loop at source lines 234-237: `n` more pairs of idle words. -/
def idle_pairs : Nat → flexencode_impl → flexencode_impl
  | 0, st => st
  | n + 1, st => idle_pairs n (queue_u32 (queue_u32 st POCSAG_IDLEWORD) POCSAG_IDLEWORD)

/-- The slot loops at source lines 241-248 and 251-258: `n` more slots, each taking the
word under the iterator `it` (the words of `msgwords` not yet queued) or, at the end of
`msgwords`, an idle word. Returns the state and the iterator. -/
def fill_slots : Nat → List Nat → flexencode_impl → flexencode_impl × List Nat
  | 0, it, st => (st, it)
  | n + 1, [], st => fill_slots n [] (queue_u32 st POCSAG_IDLEWORD)
  | n + 1, w :: it, st => fill_slots n it (queue_u32 st w)

/-- The `while` loop at source lines 249-259, for at most `fuel` iterations. Returns the
state and the iterator; the loop has run to its exit when the iterator is at the end. -/
def resync_loop : Nat → List Nat → flexencode_impl → flexencode_impl × List Nat
  | 0, it, st => (st, it)
  | fuel + 1, it, st =>
    if it ≠ [] then
      let st := queue_u32 st POCSAG_SYNCWORD
      let r := fill_slots 16 it st
      resync_loop fuel r.2 r.1
    else (st, it)

/-- Source `flexencode_impl::queue_batch()`. The `while` loop consumes at least one word
of `msgwords` per iteration, so `msgwords.length` iterations are enough. -/
def queue_batch (u : Utils) (st : flexencode_impl) : Outcome :=
  let sel : Option (List Nat × Nat) :=
    match st.d_msgtype with
    | .Numeric => some (u.make_numeric_message st.d_message, 0)
    | .Alpha => some (u.make_alpha_message st.d_message, 3)
    | _ => none
  match sel with
  | none => (some .invalid_message_type, st)
  | some (msgwords, functionbits) =>
    let msgwords := msgwords ++ [POCSAG_IDLEWORD]
    let addrtemp := pocsag_addrtemp st.d_capcode functionbits
    let addrword := u.encodeword addrtemp
    let frameoffset := st.d_capcode &&& 7
    if addrword &&& 0xFFFFF800 = addrtemp then
      let st := queue_bvec st preamble
      let st := queue_u32 st POCSAG_SYNCWORD
      let st := idle_pairs frameoffset st
      let st := queue_u32 st addrword
      let r := fill_slots (16 - (frameoffset * 2 + 1)) msgwords st
      let r := resync_loop msgwords.length r.2 r.1
      (none, r.1)
    else
      (some .address_word_check, st)

/-! ## Construction and output -/

/-- The body of the constructor `flexencode_impl::flexencode_impl()` (source lines
284-288), run on the object `st` that the member initialisers have set up. -/
def constructor_body (u : Utils) (st : flexencode_impl) : Outcome :=
  if st.d_symrate % st.d_baudrate ≠ 0 then
    (some .rate_not_divisible, st)
  else
    queue_flex_batch u st

/-- The constructor `flexencode_impl::flexencode_impl()` for given initial values of the
data members; the queue starts empty. -/
def construct (u : Utils) (baudrate capcode : Nat) (msgtype : msgtype_t) (message : String)
    (symrate : Nat) : Outcome :=
  constructor_body u
    { d_baudrate := baudrate, d_capcode := capcode, d_msgtype := msgtype,
      d_message := message, d_symrate := symrate, d_bitqueue := [] }

/-- Source constructor `flexencode_impl::flexencode_impl()`, with the values of its
member initialiser list (source line 279). -/
def flexencode_impl.mk_default (u : Utils) : Outcome :=
  construct u 1600 425321 .Alpha "hello" 6400

/-- Conversion of an `int` value to `unsigned char`, the element type of `out`. -/
def to_uchar (v : Int) : Nat := (v % 256).toNat

/-- The symbol that `work` writes for a queued bit (source lines 326-337). -/
def symbol_of (bbit : Bool) : Nat :=
  match bbit with
  | false => to_uchar 1
  | true => to_uchar (-1)

/-- The loop of `work`: `n` more transfers; `out` is the list of symbols written so far. -/
def work_loop : Nat → List Nat → flexencode_impl → List Nat × flexencode_impl
  | 0, out, st => (out, st)
  | n + 1, out, st =>
    match st.d_bitqueue with
    | [] => (out, st)
    | bbit :: rest => work_loop n (out ++ [symbol_of bbit]) { st with d_bitqueue := rest }

/-- Source `flexencode_impl::work(noutput_items, input_items, output_items)` for a
non-negative `noutput_items`: the return value, the symbols written to `out[0..]`, and
the state afterwards. -/
def work (noutput_items : Nat) (st : flexencode_impl) : Int × List Nat × flexencode_impl :=
  if st.d_bitqueue.isEmpty then
    (-1, [], st)
  else
    let toxfer := if noutput_items < st.d_bitqueue.length then noutput_items
      else st.d_bitqueue.length
    let r := work_loop toxfer [] st
    ((toxfer : Int), r.1, r.2)

/-! ## A sample instance of the external collaborators

The theorems below hold for every `Utils`. To show that their hypotheses can be met,
they are instantiated at a concrete encoder: the systematic BCH(31,21) code with generator
polynomial `0x769` followed by an even-parity bit, which is the POCSAG codeword format. -/

/-- Polynomial division of the 31-bit message `msg` by the generator: `n` more columns. -/
def bch_crc_loop : Nat → Nat → Nat → Nat → Nat
  | 0, _, msg, _ => msg
  | n + 1, column, msg, den =>
    bch_crc_loop n (column + 1)
      (if (msg >>> (30 - column)) &&& 1 = 1 then msg ^^^ den else msg) (den >>> 1)

/-- Parity of the low `n` bits of `x`. -/
def parity_bits : Nat → Nat → Nat
  | 0, _ => 0
  | n + 1, x => (x + parity_bits n (x / 2)) % 2

/-- A sample `encodeword`: BCH(31,21) check bits and even parity appended to the 21 top
bits of the argument. -/
def sample_encodeword (x : Nat) : Nat :=
  let d := u32 x / 2 ^ 11
  let crc := bch_crc_loop 21 0 (d * 2 ^ 10) (0x769 * 2 ^ 20) % 2 ^ 10
  let full := d * 2 ^ 10 + crc
  full * 2 + parity_bits 31 full

/-- A sample instance of the collaborators of `utils.h`. -/
def sample_utils : Utils where
  encodeword := sample_encodeword
  make_numeric_message := fun _ => [0x12345000, 0x0ABCD800]
  make_alpha_message := fun _ => [0x8D3B6800, 0xB7C00000, 0x80000000]

/-! ## Layouts stated by the specification -/

/-- The FLEX checksum of a word, in the words of the spec: the 4-bit one's complement of
the sum of the four nibbles at bits 4-19 and of bit 20. -/
def spec_flex_checksum (fields : Nat) : Nat :=
  15 - (fields / 2 ^ 4 % 16 + fields / 2 ^ 8 % 16 + fields / 2 ^ 12 % 16 + fields / 2 ^ 16 % 16
    + fields / 2 ^ 20 % 2) % 16

/-- The frame-info data word as the spec table lays it out: cycle at bits 4-7, frame at
bits 8-14, roaming at bit 15, repeat at bit 16, t at bits 17-20, and the FLEX checksum of
these fields in bits 0-3. -/
def spec_fiw_data_word (cycle frame roaming repeat_ t : Nat) : Nat :=
  let fields := cycle * 2 ^ 4 + frame * 2 ^ 8 + roaming * 2 ^ 15 + repeat_ * 2 ^ 16 + t * 2 ^ 17
  fields + spec_flex_checksum fields

/-- The 32 bits of a word in the order of transmission, most significant bit first. -/
def word_bits (val : Nat) : List Bool := (List.range 32).map (fun i => val.testBit (31 - i))

/-- The bits of a sequence of words, word after word. -/
def words_bits (ws : List Nat) : List Bool := ws.flatMap word_bits

/-- Rate conversion of a sequence of logical bits: every bit repeated `r` times. -/
def replicate_bits (r : Nat) (bits : List Bool) : List Bool := bits.flatMap (List.replicate r)

/-- The number of queue entries per logical bit, `d_symrate / d_baudrate`. -/
def interp (st : flexencode_impl) : Nat := st.d_symrate / st.d_baudrate

/-- The state `st` with the entries `l` appended to the back of its queue. -/
def append_bits (st : flexencode_impl) (l : List Bool) : flexencode_impl :=
  { st with d_bitqueue := st.d_bitqueue ++ l }

/-- The state `st` with the logical bits `bits` queued at its rate. -/
def append_logical (st : flexencode_impl) (bits : List Bool) : flexencode_impl :=
  append_bits st (replicate_bits (interp st) bits)

/-- The POCSAG function bits of a valid message type (source lines 213 and 217). -/
def function_bits : msgtype_t → Nat
  | .Alpha => 3
  | _ => 0

/-- The body words that the external message encoder returns for the message of `st`. -/
def body_words (u : Utils) (st : flexencode_impl) : List Nat :=
  match st.d_msgtype with
  | .Numeric => u.make_numeric_message st.d_message
  | .Alpha => u.make_alpha_message st.d_message
  | _ => []

/-- The POCSAG address codeword of `st`: `encodeword` applied to `addrtemp`. -/
def address_word (u : Utils) (st : flexencode_impl) : Nat :=
  u.encodeword (pocsag_addrtemp st.d_capcode (function_bits st.d_msgtype))

/-- The word groups that follow the first group of a POCSAG batch: the remaining words
`it` cut into groups of 16 slots, the last one padded with idle words. At most `fuel`
groups. -/
def later_groups : Nat → List Nat → List (List Nat)
  | 0, _ => []
  | fuel + 1, it =>
    if it ≠ [] then
      (it.take 16 ++ List.replicate (16 - it.length) POCSAG_IDLEWORD)
        :: later_groups fuel (it.drop 16)
    else []

/-- The number of sync-delimited groups of a POCSAG batch with frame offset `fo` and `m`
body words: `ceil((2*fo + 2 + m) / 16)`. -/
def group_count (fo m : Nat) : Nat := (2 * fo + 2 + m + 15) / 16

/-- The words of `msgwords` in `queue_batch`: the body words and the idle sentinel. -/
def msg_words (u : Utils) (st : flexencode_impl) : List Nat :=
  body_words u st ++ [POCSAG_IDLEWORD]

/-- The 16 slot words of the first group of a POCSAG batch, as `queue_batch` queues them
(source lines 234-248). -/
def first_group (u : Utils) (st : flexencode_impl) : List Nat :=
  List.replicate (2 * (st.d_capcode &&& 7)) POCSAG_IDLEWORD
    ++ address_word u st
      :: ((msg_words u st).take (16 - ((st.d_capcode &&& 7) * 2 + 1))
        ++ List.replicate (16 - ((st.d_capcode &&& 7) * 2 + 1) - (msg_words u st).length)
          POCSAG_IDLEWORD)

/-- The slot words of every group of a POCSAG batch, group by group. -/
def batch_groups (u : Utils) (st : flexencode_impl) : List (List Nat) :=
  first_group u st
    :: later_groups (msg_words u st).length
      ((msg_words u st).drop (16 - ((st.d_capcode &&& 7) * 2 + 1)))

/-- The logical bits of one block of a FLEX frame: block-info word, short-address word,
numeric vector word, message codeword and four bit-sync patterns. -/
def flex_block_bits (u : Utils) : List Bool :=
  words_bits [make_biw1 u 0 0 2 0 0, u.encodeword (reverse_bits32 1337331),
      make_numeric_vector u 3 3 0 (flex_msg_checksum &&& 0xf),
      u.encodeword (reverse_bits32 flex_msgx)]
    ++ (bit_sync_1 ++ bit_sync_1 ++ bit_sync_1 ++ bit_sync_1)

/-- The logical bits of the header of FLEX frame number `frame`, in the order in which
`queue_flex_batch` queues them (source lines 163-169). -/
def flex_header_bits (u : Utils) (frame : Nat) : List Bool :=
  bit_sync_1 ++ a1 ++ b ++ a1_inv ++ word_bits (make_fiw u 0 frame 0 0 0) ++ cblock

/-- The logical bits of FLEX frame number `frame`: header and 11 blocks. -/
def flex_frame_bits (u : Utils) (frame : Nat) : List Bool :=
  flex_header_bits u frame ++ (List.replicate 11 (flex_block_bits u)).flatten

/-- The logical bits of `n` consecutive FLEX frames, the first with number `frame`. -/
def flex_frames_bits (u : Utils) : Nat → Nat → List Bool
  | 0, _ => []
  | n + 1, frame => flex_frame_bits u frame ++ flex_frames_bits u n (frame + 1)

/-! ## Draining -/

/-- Successive calls `work(c1)`, `work(c2)`, ... on one encoder: the symbols written by
all the calls, in order. A call that returns the end-of-stream value writes nothing. -/
def drain : List Nat → flexencode_impl → List Nat
  | [], _ => []
  | c :: cs, st => (work c st).2.1 ++ drain cs (work c st).2.2

/-- The value of an `unsigned char` read as a signed 8-bit integer. -/
def as_signed_char (v : Nat) : Int := if v < 128 then (v : Int) else (v : Int) - 256

/-- The block-info data word as the spec table lays it out: priority at bits 4-7,
blockinfo at bits 8-9, vectorstart at bits 10-15, carryon at bits 16-17, collapse at bits
18-20, and the FLEX checksum of these fields in bits 0-3. -/
def spec_biw1_data_word (priority blockinfo vectorstart carryon collapse : Nat) : Nat :=
  let fields := priority * 2 ^ 4 + blockinfo * 2 ^ 8 + vectorstart * 2 ^ 10 + carryon * 2 ^ 16
    + collapse * 2 ^ 18
  fields + spec_flex_checksum fields

/-- The numeric vector data word as the spec table lays it out: vector type at bits 4-6,
message start at bits 7-13, nwords at bits 14-16, cksum at bits 17-20, and the FLEX
checksum of these fields in bits 0-3. -/
def spec_numeric_vector_data_word (vector_type message_start nwords cksum : Nat) : Nat :=
  let fields := vector_type * 2 ^ 4 + message_start * 2 ^ 7 + nwords * 2 ^ 14 + cksum * 2 ^ 17
  fields + spec_flex_checksum fields

/-- The sum that a receiver checks on a FLEX data word: the checksum nibble, the four
nibbles at bits 4-19 and bit 20. -/
def flex_check_sum (dw : Nat) : Nat :=
  (dw &&& 0xf) + ((dw >>> 4) &&& 0xf) + ((dw >>> 8) &&& 0xf) + ((dw >>> 12) &&& 0xf)
    + ((dw >>> 16) &&& 0xf) + ((dw >>> 20) &&& 1)

/-! # Theorems

## Helper lemmas on 32-bit words -/

theorem and_mask_mod (x k : Nat) : x &&& (2 ^ k - 1) = x % 2 ^ k :=
  Nat.and_pow_two_sub_one_eq_mod x k

theorem and_0xf (x : Nat) : x &&& 0xf = x % 16 := and_mask_mod x 4
theorem and_0x1 (x : Nat) : x &&& 1 = x % 2 := and_mask_mod x 1
theorem and_0x3 (x : Nat) : x &&& 0x3 = x % 4 := and_mask_mod x 2
theorem and_0x7 (x : Nat) : x &&& 0x7 = x % 8 := and_mask_mod x 3
theorem and_0x3f (x : Nat) : x &&& 0x3f = x % 64 := and_mask_mod x 6
theorem and_0x7f (x : Nat) : x &&& 0x7f = x % 128 := and_mask_mod x 7
theorem and_0x1FFFFF (x : Nat) : x &&& 0x1FFFFF = x % 2097152 := and_mask_mod x 21

theorem or_shl_eq_add (acc field k : Nat) (h : acc < 2 ^ k) :
    acc ||| field * 2 ^ k = acc + field * 2 ^ k := by
  rw [Nat.lor_comm, Nat.mul_comm, ← Nat.mul_add_lt_is_or h, Nat.add_comm]

theorem or_low_eq_add (hi lo k : Nat) (h : lo < 2 ^ k) (hd : hi % 2 ^ k = 0) :
    hi ||| lo = hi + lo := by
  have e : hi = 2 ^ k * (hi / 2 ^ k) := by
    have := Nat.div_add_mod hi (2 ^ k)
    omega
  rw [e, ← Nat.mul_add_lt_is_or h]

theorem flex_nibble_sum_eq (dw : Nat) : flex_nibble_sum dw =
    dw / 16 % 16 + dw / 256 % 16 + dw / 4096 % 16 + dw / 65536 % 16 + dw / 1048576 % 2 := by
  simp only [flex_nibble_sum, u32, and_0xf, and_0x1, Nat.shiftRight_eq_div_pow, Nat.reducePow]
  omega

theorem not32_and_0xf (s : Nat) : not32 s &&& 0xf = 15 - s % 16 := by
  simp only [not32, u32, and_0xf, Nat.reducePow]
  omega

theorem add_flex_checksum_and (w : Nat) :
    add_flex_checksum w &&& 0xf = (w &&& 0xf) ||| (not32 (flex_nibble_sum w) &&& 0xf) := by
  simp only [add_flex_checksum]
  apply Nat.eq_of_testBit_eq
  intro i
  simp only [Nat.testBit_and, Nat.testBit_or]
  cases w.testBit i <;> cases (not32 (flex_nibble_sum w)).testBit i <;> simp

theorem rev_bits_lt (n : Nat) : ∀ x, rev_bits n x < 2 ^ n := by
  induction n with
  | zero => intro x; simp [rev_bits]
  | succ n ih =>
    intro x
    have h1 := ih (x / 2)
    have h2 : x % 2 = 0 ∨ x % 2 = 1 := by omega
    simp only [rev_bits, Nat.pow_succ]
    rcases h2 with h3 | h3 <;> rw [h3] <;> omega

theorem testBit_rev_bits (n : Nat) : ∀ x j : Nat,
    (rev_bits n x).testBit j = (decide (j < n) && x.testBit (n - 1 - j)) := by
  induction n with
  | zero => intro x j; simp [rev_bits]
  | succ n ih =>
    intro x j
    rw [rev_bits, Nat.testBit_mul_pow_two_add _ (rev_bits_lt n (x / 2)), ih]
    by_cases hj : j < n
    · have e : n + 1 - 1 - j = (n - 1 - j) + 1 := by omega
      rw [e, Nat.testBit_succ]
      simp [hj, Nat.lt_succ_of_lt hj]
    · by_cases hj2 : j = n
      · subst hj2
        simp [Nat.testBit_zero]
      · have h3 : ¬ j < n + 1 := by omega
        have h4 : j - n = (j - n - 1) + 1 := by omega
        have h2 : x % 2 = 0 ∨ x % 2 = 1 := by omega
        rw [h4, Nat.testBit_succ]
        rcases h2 with h5 | h5 <;> simp [hj, h3, h5]

theorem testBit_reverse_bits32 (x j : Nat) :
    (reverse_bits32 x).testBit j = (decide (j < 32) && x.testBit (31 - j)) :=
  testBit_rev_bits 32 x j

theorem testBit_of_lt_u32 {x j : Nat} (h : x < 2 ^ 32) (hj : 32 ≤ j) : x.testBit j = false :=
  Nat.testBit_lt_two_pow (Nat.lt_of_lt_of_le h (Nat.pow_le_pow_right (by decide) hj))

theorem reverse_bits32_involutive (x : Nat) (h : x < 2 ^ 32) :
    reverse_bits32 (reverse_bits32 x) = x := by
  apply Nat.eq_of_testBit_eq
  intro j
  rw [testBit_reverse_bits32, testBit_reverse_bits32]
  by_cases hj : j < 32
  · have e : 31 - (31 - j) = j := by omega
    have h2 : 31 - j < 32 := by omega
    simp [hj, h2, e]
  · simp [hj, testBit_of_lt_u32 h (Nat.le_of_not_lt hj)]

theorem reverse_bits32_lt (x : Nat) : reverse_bits32 x < 2 ^ 32 := rev_bits_lt 32 x

theorem testBit_top21_mask (j : Nat) :
    (0xFFFFF800 : Nat).testBit j = (decide (11 ≤ j) && decide (j < 32)) := by
  have e : (0xFFFFF800 : Nat) = (2 ^ 21 - 1) <<< 11 := by decide
  rw [e, Nat.testBit_shiftLeft, Nat.testBit_two_pow_sub_one]
  by_cases h1 : 11 ≤ j
  · by_cases h2 : j < 32
    · have : j - 11 < 21 := by omega
      simp [h1, h2, this]
    · have : ¬ j - 11 < 21 := by omega
      simp [h1, h2, this]
  · simp [h1]

theorem reverse_bits32_and_top21 (x : Nat) (h : x < 2 ^ 21) :
    reverse_bits32 x &&& 0xFFFFF800 = reverse_bits32 x := by
  apply Nat.eq_of_testBit_eq
  intro j
  rw [Nat.testBit_and, testBit_top21_mask, testBit_reverse_bits32]
  by_cases h1 : 11 ≤ j
  · simp only [h1, decide_True, Bool.true_and]
    cases decide (j < 32) <;> simp
  · have h2 : x.testBit (31 - j) = false :=
      Nat.testBit_lt_two_pow (Nat.lt_of_lt_of_le h (Nat.pow_le_pow_right (by decide) (by omega)))
    simp [h1, h2]

theorem and_top21 (y : Nat) (h : y < 2 ^ 32) : y &&& 0xFFFFF800 = y / 2 ^ 11 * 2 ^ 11 := by
  apply Nat.eq_of_testBit_eq
  intro j
  rw [Nat.testBit_and, testBit_top21_mask, ← Nat.shiftRight_eq_div_pow, ← Nat.shiftLeft_eq,
    Nat.testBit_shiftLeft, Nat.testBit_shiftRight]
  by_cases h1 : 11 ≤ j
  · have e : 11 + (j - 11) = j := by omega
    by_cases h2 : j < 32
    · simp [h1, h2, e]
    · simp [h1, h2, e, testBit_of_lt_u32 h (Nat.le_of_not_lt h2)]
  · simp [h1]

theorem parity_bits_lt (n x : Nat) : parity_bits n x < 2 := by
  cases n with
  | zero => simp [parity_bits]
  | succ n => simp only [parity_bits]; omega

theorem sample_encodeword_keeps_data : EncodewordKeepsData sample_encodeword := by
  intro x hx
  have hp : ∀ full, parity_bits 31 full < 2 := parity_bits_lt 31
  simp only [sample_encodeword, u32, Nat.mod_eq_of_lt hx]
  generalize bch_crc_loop 21 0 (x / 2 ^ 11 * 2 ^ 10) (0x769 * 2 ^ 20) = c
  have h3 := hp (x / 2 ^ 11 * 2 ^ 10 + c % 2 ^ 10)
  generalize parity_bits 31 (x / 2 ^ 11 * 2 ^ 10 + c % 2 ^ 10) = p at h3 ⊢
  have hlt : (x / 2 ^ 11 * 2 ^ 10 + c % 2 ^ 10) * 2 + p < 2 ^ 32 := by
    simp only [Nat.reducePow] at hx ⊢; omega
  rw [and_top21 _ hlt, and_top21 _ hx]
  simp only [Nat.reducePow] at hx ⊢; omega

/-! ## C1 : the checksum nibble written by `add_flex_checksum` -/

/-- C1, as stated, fails: for the word `0x11` the low 4 bits after `add_flex_checksum` are
`0xf`, while the low 4 bits of the complemented nibble sum are `0xe`. -/
theorem add_flex_checksum_not_set :
    add_flex_checksum 0x11 &&& 0xf = 0xf ∧ not32 (flex_nibble_sum 0x11) &&& 0xf = 0xe ∧
    add_flex_checksum 0x11 &&& 0xf ≠ not32 (flex_nibble_sum 0x11) &&& 0xf := by
  decide

/-- C1, amended: after `add_flex_checksum` the low 4 bits of the word are the bitwise OR of
the low 4 bits it had before with the low 4 bits of the complement of the nibble sum
`((w>>4)&0xf) + ((w>>8)&0xf) + ((w>>12)&0xf) + ((w>>16)&0xf) + ((w>>20)&1)`; they equal
the low 4 bits of that complement whenever the low 4 bits of the word were zero. -/
theorem add_flex_checksum_low_bits (w : Nat) :
    add_flex_checksum w &&& 0xf = (w &&& 0xf) ||| (not32 (flex_nibble_sum w) &&& 0xf) ∧
    flex_nibble_sum w = ((w >>> 4) &&& 0xf) + ((w >>> 8) &&& 0xf) + ((w >>> 12) &&& 0xf)
      + ((w >>> 16) &&& 0xf) + ((w >>> 20) &&& 1) ∧
    (w &&& 0xf = 0 → add_flex_checksum w &&& 0xf = not32 (flex_nibble_sum w) &&& 0xf) := by
  refine ⟨add_flex_checksum_and w, ?_, ?_⟩
  · rw [flex_nibble_sum_eq]
    simp only [and_0xf, and_0x1, Nat.shiftRight_eq_div_pow, Nat.reducePow]
  · intro h
    rw [add_flex_checksum_and, h, Nat.zero_or]

/-- Witness for C1 (amended) at the word `0x1234560`, whose low 4 bits are zero. -/
theorem add_flex_checksum_low_bits_witness :
    0x1234560 &&& 0xf = 0 ∧
    add_flex_checksum 0x1234560 &&& 0xf = not32 (flex_nibble_sum 0x1234560) &&& 0xf :=
  ⟨by decide, (add_flex_checksum_low_bits 0x1234560).2.2 (by decide)⟩

/-! ## C2 : range check of `make_short_address` -/

/-- C2: `make_short_address(address)` succeeds exactly when `32769 ≤ address ≤ 1966080`;
it then returns `encodeword(reverse_bits32(address))`, the 21-bit mask losing nothing;
otherwise it fails with the range error. The four boundary addresses behave accordingly. -/
theorem make_short_address_range (u : Utils) (address : Nat) :
    ((∃ w, make_short_address u address = .ok w) ↔ (32769 ≤ address ∧ address ≤ 1966080)) ∧
    (32769 ≤ address ∧ address ≤ 1966080 →
      address &&& 0x1FFFFF = address ∧
      make_short_address u address = .ok (u.encodeword (reverse_bits32 address))) ∧
    (¬ (32769 ≤ address ∧ address ≤ 1966080) →
      make_short_address u address = .error .short_address_out_of_range) ∧
    make_short_address u 32769 = .ok (u.encodeword (reverse_bits32 32769)) ∧
    make_short_address u 1966080 = .ok (u.encodeword (reverse_bits32 1966080)) ∧
    make_short_address u 32768 = .error .short_address_out_of_range ∧
    make_short_address u 1966081 = .error .short_address_out_of_range := by
  have hin : ∀ a, 32769 ≤ a ∧ a ≤ 1966080 →
      a &&& 0x1FFFFF = a ∧
      make_short_address u a = .ok (u.encodeword (reverse_bits32 a)) := by
    intro a h
    have e : a &&& 0x1FFFFF = a := by rw [and_0x1FFFFF]; omega
    refine ⟨e, ?_⟩
    simp only [make_short_address, ge_iff_le, h, and_self, if_true, Nat.zero_or, e]
  have hout : ∀ a, ¬ (32769 ≤ a ∧ a ≤ 1966080) →
      make_short_address u a = .error .short_address_out_of_range := by
    intro a h
    simp only [make_short_address, ge_iff_le, h, if_false]
  refine ⟨⟨?_, fun h => ⟨_, (hin _ h).2⟩⟩, hin _, hout _, (hin _ (by decide)).2,
    (hin _ (by decide)).2, hout _ (by decide), hout _ (by decide)⟩
  rintro ⟨w, hw⟩
  by_contra h
  rw [hout _ h] at hw
  cases hw

/-- Witness for C2 at the lowest valid address, with the sample collaborators. -/
theorem make_short_address_range_witness :
    (32769 ≤ 32769 ∧ 32769 ≤ 1966080) ∧
    make_short_address sample_utils 32769
      = .ok (sample_utils.encodeword (reverse_bits32 32769)) :=
  ⟨by decide, ((make_short_address_range sample_utils 32769).2.1 (by decide)).2⟩

theorem shl32_of_lt (x k : Nat) (h : x * 2 ^ k < 2 ^ 32) : shl32 x k = x * 2 ^ k := by
  rw [shl32, u32, Nat.shiftLeft_eq, Nat.mod_eq_of_lt h]

theorem add_flex_checksum_eq_add (fields : Nat) (h : fields % 2 ^ 4 = 0) :
    add_flex_checksum fields = fields + spec_flex_checksum fields := by
  have hs : not32 (flex_nibble_sum fields) &&& 0xf = spec_flex_checksum fields := by
    rw [not32_and_0xf, flex_nibble_sum_eq, spec_flex_checksum]
    simp only [Nat.reducePow]
  rw [add_flex_checksum, hs]
  apply or_low_eq_add _ _ 4 _ h
  rw [spec_flex_checksum]
  simp only [Nat.reducePow]; omega

theorem spec_flex_checksum_lt (fields : Nat) : spec_flex_checksum fields < 16 := by
  rw [spec_flex_checksum]; omega

theorem add_low_nibble_div (D k : Nat) (hD : D % 16 = 0) (hk : k < 16) :
    (D + k) % 16 = k ∧ (D + k) / 16 = D / 16 ∧ (D + k) / 256 = D / 256 ∧
    (D + k) / 4096 = D / 4096 ∧ (D + k) / 32768 = D / 32768 ∧ (D + k) / 65536 = D / 65536 ∧
    (D + k) / 131072 = D / 131072 ∧ (D + k) / 1048576 = D / 1048576 := by
  refine ⟨?_, ?_, ?_, ?_, ?_, ?_, ?_, ?_⟩ <;> omega

theorem fiw_dw_eq (cycle frame roaming repeat_ t : Nat) :
    fiw_dw cycle frame roaming repeat_ t
      = spec_fiw_data_word (cycle % 16) (frame % 128) (roaming % 2) (repeat_ % 2) (t % 16) := by
  have hc : cycle % 16 < 16 := Nat.mod_lt _ (by decide)
  have hf : frame % 128 < 128 := Nat.mod_lt _ (by decide)
  have hr : roaming % 2 < 2 := Nat.mod_lt _ (by decide)
  have hp : repeat_ % 2 < 2 := Nat.mod_lt _ (by decide)
  have ht : t % 16 < 16 := Nat.mod_lt _ (by decide)
  simp only [fiw_dw, spec_fiw_data_word, and_0xf, and_0x7f, and_0x1, Nat.zero_or]
  generalize cycle % 16 = c at hc ⊢
  generalize frame % 128 = f at hf ⊢
  generalize roaming % 2 = r at hr ⊢
  generalize repeat_ % 2 = p at hp ⊢
  generalize t % 16 = t' at ht ⊢
  rw [shl32_of_lt c 4 (by simp only [Nat.reducePow]; omega),
    shl32_of_lt f 8 (by simp only [Nat.reducePow]; omega),
    shl32_of_lt r 15 (by simp only [Nat.reducePow]; omega),
    shl32_of_lt p 16 (by simp only [Nat.reducePow]; omega),
    shl32_of_lt t' 17 (by simp only [Nat.reducePow]; omega)]
  rw [or_shl_eq_add _ f 8 (by simp only [Nat.reducePow]; omega),
    or_shl_eq_add _ r 15 (by simp only [Nat.reducePow]; omega),
    or_shl_eq_add _ p 16 (by simp only [Nat.reducePow]; omega),
    or_shl_eq_add _ t' 17 (by simp only [Nat.reducePow]; omega)]
  exact add_flex_checksum_eq_add _ (by simp only [Nat.reducePow]; omega)

theorem spec_fiw_data_word_lt (cycle frame roaming repeat_ t : Nat)
    (hc : cycle < 16) (hf : frame < 128) (hr : roaming < 2) (hp : repeat_ < 2) (ht : t < 16) :
    spec_fiw_data_word cycle frame roaming repeat_ t < 2 ^ 21 := by
  simp only [spec_fiw_data_word, spec_flex_checksum, Nat.reducePow]
  omega

/-! ## C3 : round trip of the frame-info word -/

/-- C3: for field values within their widths, `make_fiw` is
`encodeword(reverse_bits32(dw))` for the data word `dw` of the spec table (fields at their
offsets, FLEX checksum in bits 0-3); when `encodeword` keeps its top 21 bits, reversing
the output with its 11 low bits cleared gives `dw` back, and each field is recovered from
`dw` by shifting and masking at its offset. -/
theorem make_fiw_round_trip (u : Utils) (hu : EncodewordKeepsData u.encodeword)
    (cycle frame roaming repeat_ t : Nat)
    (hc : cycle < 16) (hf : frame < 128) (hr : roaming < 2) (hp : repeat_ < 2) (ht : t < 16) :
    make_fiw u cycle frame roaming repeat_ t
      = u.encodeword (reverse_bits32 (spec_fiw_data_word cycle frame roaming repeat_ t)) ∧
    reverse_bits32 (make_fiw u cycle frame roaming repeat_ t &&& 0xFFFFF800)
      = spec_fiw_data_word cycle frame roaming repeat_ t ∧
    (spec_fiw_data_word cycle frame roaming repeat_ t >>> 4) &&& 0xf = cycle ∧
    (spec_fiw_data_word cycle frame roaming repeat_ t >>> 8) &&& 0x7f = frame ∧
    (spec_fiw_data_word cycle frame roaming repeat_ t >>> 15) &&& 1 = roaming ∧
    (spec_fiw_data_word cycle frame roaming repeat_ t >>> 16) &&& 1 = repeat_ ∧
    (spec_fiw_data_word cycle frame roaming repeat_ t >>> 17) &&& 0xf = t ∧
    spec_fiw_data_word cycle frame roaming repeat_ t &&& 0xf
      = not32 (flex_nibble_sum (spec_fiw_data_word cycle frame roaming repeat_ t)) &&& 0xf := by
  have hdw : fiw_dw cycle frame roaming repeat_ t
      = spec_fiw_data_word cycle frame roaming repeat_ t := by
    rw [fiw_dw_eq, Nat.mod_eq_of_lt hc, Nat.mod_eq_of_lt hf, Nat.mod_eq_of_lt hr,
      Nat.mod_eq_of_lt hp, Nat.mod_eq_of_lt ht]
  have hlt := spec_fiw_data_word_lt cycle frame roaming repeat_ t hc hf hr hp ht
  have hlt32 : spec_fiw_data_word cycle frame roaming repeat_ t < 2 ^ 32 :=
    Nat.lt_of_lt_of_le hlt (by decide)
  refine ⟨by rw [make_fiw, hdw], ?_, ?_, ?_, ?_, ?_, ?_, ?_⟩
  · rw [make_fiw, hdw, hu _ (reverse_bits32_lt _), reverse_bits32_and_top21 _ hlt,
      reverse_bits32_involutive _ hlt32]
  all_goals
    simp only [and_0xf, and_0x7f, and_0x1, not32_and_0xf, flex_nibble_sum_eq,
      Nat.shiftRight_eq_div_pow, spec_fiw_data_word, Nat.reducePow]
    generalize hD : cycle * 16 + frame * 256 + roaming * 32768 + repeat_ * 65536 + t * 131072
      = D
    have hD16 : D % 16 = 0 := by omega
    obtain ⟨e0, e4, e8, e12, e15, e16, e17, e20⟩ :=
      add_low_nibble_div D _ hD16 (spec_flex_checksum_lt D)
    simp only [e0, e4, e8, e12, e15, e16, e17, e20]
    first
      | omega
      | (simp only [spec_flex_checksum, not32, u32, Nat.reducePow]; omega)

/-- Witness for C3: the frame-info word of cycle 3, frame 77, roaming 1, repeat 0, t 9
with the sample BCH encoder. -/
theorem make_fiw_round_trip_witness :
    EncodewordKeepsData sample_utils.encodeword ∧ 3 < 16 ∧ 77 < 128 ∧ 1 < 2 ∧ 0 < 2 ∧ 9 < 16 ∧
    reverse_bits32 (make_fiw sample_utils 3 77 1 0 9 &&& 0xFFFFF800)
      = spec_fiw_data_word 3 77 1 0 9 :=
  ⟨sample_encodeword_keeps_data, by decide, by decide, by decide, by decide, by decide,
    (make_fiw_round_trip sample_utils sample_encodeword_keeps_data 3 77 1 0 9
      (by decide) (by decide) (by decide) (by decide) (by decide)).2.1⟩

/-! ## Helper lemmas on the bit queue -/

theorem append_bits_nil (st : flexencode_impl) : append_bits st [] = st := by
  simp [append_bits]

theorem append_bits_append (st : flexencode_impl) (l1 l2 : List Bool) :
    append_bits (append_bits st l1) l2 = append_bits st (l1 ++ l2) := by
  simp [append_bits]

theorem interp_append_bits (st : flexencode_impl) (l : List Bool) :
    interp (append_bits st l) = interp st := rfl

theorem replicate_bits_append (r : Nat) (l1 l2 : List Bool) :
    replicate_bits r (l1 ++ l2) = replicate_bits r l1 ++ replicate_bits r l2 := by
  simp [replicate_bits]

theorem replicate_bits_length (r : Nat) (l : List Bool) :
    (replicate_bits r l).length = r * l.length := by
  induction l with
  | nil => simp [replicate_bits]
  | cons a l ih =>
    simp only [replicate_bits, List.flatMap_cons, List.length_append, List.length_replicate,
      List.length_cons] at ih ⊢
    rw [ih, Nat.mul_succ, Nat.add_comm]

theorem append_logical_nil (st : flexencode_impl) : append_logical st [] = st := by
  simp [append_logical, replicate_bits, append_bits]

theorem append_logical_append (st : flexencode_impl) (l1 l2 : List Bool) :
    append_logical (append_logical st l1) l2 = append_logical st (l1 ++ l2) := by
  simp only [append_logical, interp_append_bits, append_bits_append, replicate_bits_append]

theorem queuebit_loop_eq (n : Nat) (bit : Bool) : ∀ st,
    queuebit_loop n bit st = append_bits st (List.replicate n bit) := by
  induction n with
  | zero => intro st; simp [queuebit_loop, append_bits]
  | succ n ih =>
    intro st
    rw [queuebit_loop, ih]
    simp [push, append_bits, List.replicate_succ]

theorem queuebit_eq (st : flexencode_impl) (bit : Bool) :
    queuebit st bit = append_logical st [bit] := by
  simp [queuebit, queuebit_loop_eq, append_logical, replicate_bits, interp]

theorem queue_bvec_eq (bits : List Bool) : ∀ st,
    queue_bvec st bits = append_logical st bits := by
  induction bits with
  | nil => intro st; simp [queue_bvec, append_logical_nil]
  | cons a l ih =>
    intro st
    rw [queue_bvec, ih, queuebit_eq, append_logical_append]
    rfl

theorem top_bit_test (val : Nat) :
    (if val &&& 0x80000000 = 0x80000000 then true else false) = val.testBit 31 := by
  have e : (0x80000000 : Nat) = 2 ^ 31 := by decide
  rw [e, Nat.and_two_pow]
  cases h : val.testBit 31 <;> simp

theorem testBit_shl32_one (val i : Nat) (h : i < 31) :
    (shl32 val 1).testBit (31 - i) = val.testBit (31 - (i + 1)) := by
  rw [shl32, u32, Nat.testBit_mod_two_pow, Nat.testBit_shiftLeft]
  have h1 : 31 - i < 32 := by omega
  have h2 : 31 - i ≥ 1 := by omega
  have h3 : 31 - i - 1 = 31 - (i + 1) := by omega
  simp [h1, h2, h3]

theorem queue_u32_loop_eq (n : Nat) : ∀ val st, n ≤ 32 →
    queue_u32_loop n val st
      = append_logical st ((List.range n).map (fun i => val.testBit (31 - i))) := by
  induction n with
  | zero => intro val st _; simp [queue_u32_loop, append_logical_nil]
  | succ n ih =>
    intro val st hn
    rw [queue_u32_loop, ih _ _ (by omega), top_bit_test, queuebit_eq, append_logical_append,
      List.range_succ_eq_map, List.map_cons, List.map_map]
    congr 2
    simp only [List.singleton_append, List.cons.injEq, Nat.sub_zero, true_and]
    apply List.map_congr_left
    intro i hi
    have : i < 31 := by have := List.mem_range.mp hi; omega
    simp [testBit_shl32_one val i this]

theorem queue_u32_eq (st : flexencode_impl) (val : Nat) :
    queue_u32 st val = append_logical st (word_bits val) :=
  queue_u32_loop_eq 32 val st (Nat.le_refl _)

theorem replicate_bits_map {α : Type} (r : Nat) (f : α → Bool) (l : List α) :
    replicate_bits r (l.map f) = l.flatMap (fun i => List.replicate r (f i)) := by
  induction l with
  | nil => rfl
  | cons a l ih =>
    simp only [replicate_bits, List.map_cons, List.flatMap_cons] at ih ⊢
    rw [ih]

/-! ## C10 : `queue(uint32_t)` -/

/-- C10: `queue(val)` keeps the entries already queued and appends, for
`i = 0, 1, ..., 31` in this order, `r = d_symrate / d_baudrate` copies of bit `31 - i` of
`val`, that is `32 * r` entries; with baud rate 1600 and symbol rate 6400 every bit is
appended 4 times. -/
theorem queue_u32_appends (st : flexencode_impl) (val : Nat) :
    (queue_u32 st val).d_bitqueue = st.d_bitqueue ++ (List.range 32).flatMap
      (fun i => List.replicate (st.d_symrate / st.d_baudrate) (val.testBit (31 - i))) ∧
    ((List.range 32).flatMap
      (fun i => List.replicate (st.d_symrate / st.d_baudrate) (val.testBit (31 - i)))).length
      = 32 * (st.d_symrate / st.d_baudrate) ∧
    (st.d_baudrate = 1600 → st.d_symrate = 6400 →
      (queue_u32 st val).d_bitqueue = st.d_bitqueue ++ (List.range 32).flatMap
        (fun i => List.replicate 4 (val.testBit (31 - i)))) := by
  have h : (queue_u32 st val).d_bitqueue = st.d_bitqueue ++ (List.range 32).flatMap
      (fun i => List.replicate (st.d_symrate / st.d_baudrate) (val.testBit (31 - i))) := by
    rw [queue_u32_eq, append_logical, append_bits, word_bits, replicate_bits_map, interp]
  refine ⟨h, ?_, ?_⟩
  · have e := replicate_bits_length (st.d_symrate / st.d_baudrate) (word_bits val)
    rw [word_bits, replicate_bits_map, List.length_map, List.length_range, Nat.mul_comm] at e
    exact e
  · intro hb hs
    rw [h, hb, hs]

/-- Witness for C10: the POCSAG sync word queued at 1600 baud and 6400 symbols per second
behind one entry already in the queue. -/
theorem queue_u32_appends_witness :
    (queue_u32 ⟨1600, 425321, .Alpha, "hello", 6400, [true]⟩ 0x7CD215D8).d_bitqueue
      = [true] ++ (List.range 32).flatMap
        (fun i => List.replicate 4 ((0x7CD215D8 : Nat).testBit (31 - i))) :=
  (queue_u32_appends ⟨1600, 425321, .Alpha, "hello", 6400, [true]⟩ 0x7CD215D8).2.2 rfl rfl

/-! ## Helper lemmas on the POCSAG batch -/

theorem words_bits_nil : words_bits [] = [] := rfl

theorem words_bits_cons (w : Nat) (ws : List Nat) :
    words_bits (w :: ws) = word_bits w ++ words_bits ws := rfl

theorem words_bits_append (a c : List Nat) :
    words_bits (a ++ c) = words_bits a ++ words_bits c := by
  simp [words_bits]

theorem word_bits_length (w : Nat) : (word_bits w).length = 32 := by
  simp [word_bits]

theorem words_bits_length (ws : List Nat) : (words_bits ws).length = 32 * ws.length := by
  induction ws with
  | nil => rfl
  | cons w ws ih =>
    rw [words_bits_cons, List.length_append, word_bits_length, ih, List.length_cons]
    omega

theorem idle_pairs_eq (n : Nat) : ∀ st,
    idle_pairs n st
      = append_logical st (words_bits (List.replicate (2 * n) POCSAG_IDLEWORD)) := by
  induction n with
  | zero => intro st; simp [idle_pairs, words_bits_nil, append_logical_nil]
  | succ n ih =>
    intro st
    have e : 2 * (n + 1) = (2 * n + 1) + 1 := by omega
    rw [idle_pairs, ih, queue_u32_eq, queue_u32_eq, append_logical_append,
      append_logical_append, e, List.replicate_succ, List.replicate_succ, words_bits_cons,
      words_bits_cons]

theorem fill_slots_eq (n : Nat) : ∀ it st,
    fill_slots n it st
      = (append_logical st
          (words_bits (it.take n ++ List.replicate (n - it.length) POCSAG_IDLEWORD)),
        it.drop n) := by
  induction n with
  | zero => intro it st; simp [fill_slots, words_bits_nil, append_logical_nil]
  | succ n ih =>
    intro it st
    cases it with
    | nil =>
      rw [fill_slots, ih, queue_u32_eq, append_logical_append]
      simp [List.replicate_succ, words_bits_cons]
    | cons w it =>
      rw [fill_slots, ih, queue_u32_eq, append_logical_append]
      simp [words_bits_cons]

theorem later_groups_nil (fuel : Nat) : later_groups fuel [] = [] := by
  cases fuel <;> simp [later_groups]

theorem resync_loop_eq (fuel : Nat) : ∀ it st, it.length ≤ fuel →
    resync_loop fuel it st
      = (append_logical st
          (words_bits ((later_groups fuel it).flatMap (fun g => POCSAG_SYNCWORD :: g))),
        []) := by
  induction fuel with
  | zero =>
    intro it st h
    have : it = [] := List.length_eq_zero.mp (Nat.le_zero.mp h)
    subst this
    simp [resync_loop, later_groups, words_bits_nil, append_logical_nil]
  | succ fuel ih =>
    intro it st h
    by_cases hit : it = []
    · subst hit
      simp [resync_loop, later_groups, words_bits_nil, append_logical_nil]
    · have hlen : (it.drop 16).length ≤ fuel := by
        have : 0 < it.length := List.length_pos.mpr hit
        rw [List.length_drop]; omega
      simp only [resync_loop, later_groups, ne_eq, hit, not_false_eq_true, if_true]
      rw [fill_slots_eq, ih _ _ hlen, queue_u32_eq, append_logical_append,
        append_logical_append, List.flatMap_cons, List.cons_append, words_bits_cons]
      simp only [words_bits_append, List.append_assoc]

theorem later_groups_spec (fuel : Nat) : ∀ it : List Nat, it.length ≤ fuel →
    (∀ g ∈ later_groups fuel it, g.length = 16) ∧
    (later_groups fuel it).length = (it.length + 15) / 16 ∧
    (later_groups fuel it).flatten
      = it ++ List.replicate (16 * ((it.length + 15) / 16) - it.length) POCSAG_IDLEWORD := by
  induction fuel with
  | zero =>
    intro it h
    have : it = [] := List.length_eq_zero.mp (Nat.le_zero.mp h)
    subst this
    simp [later_groups]
  | succ fuel ih =>
    intro it h
    by_cases hit : it = []
    · subst hit
      simp [later_groups]
    · have hpos : 0 < it.length := List.length_pos.mpr hit
      have hlen : (it.drop 16).length ≤ fuel := by rw [List.length_drop]; omega
      obtain ⟨h1, h2, h3⟩ := ih _ hlen
      simp only [later_groups, ne_eq, hit, not_false_eq_true, if_true]
      rw [List.length_drop] at h2 h3
      refine ⟨?_, ?_, ?_⟩
      · intro g hg
        rcases List.mem_cons.mp hg with hg | hg
        · rw [hg, List.length_append, List.length_take, List.length_replicate]; omega
        · exact h1 g hg
      · rw [List.length_cons, h2]; omega
      · rw [List.flatten_cons, h3]
        by_cases h16 : it.length ≤ 16
        · have e1 : it.take 16 = it := List.take_of_length_le h16
          have e2 : it.drop 16 = [] := List.drop_of_length_le h16
          have e3 : 16 * ((it.length - 16 + 15) / 16) - (it.length - 16) = 0 := by omega
          have e4 : 16 * ((it.length + 15) / 16) - it.length = 16 - it.length := by omega
          rw [e1, e2, e3, e4]
          simp
        · have e1 : 16 - it.length = 0 := by omega
          have e4 : 16 * ((it.length - 16 + 15) / 16) - (it.length - 16)
              = 16 * ((it.length + 15) / 16) - it.length := by omega
          rw [e1, e4, List.replicate_zero, List.append_nil, ← List.append_assoc,
            List.take_append_drop]

theorem testBit_shl32 (x k j : Nat) :
    (shl32 x k).testBit j = (decide (j < 32) && (decide (k ≤ j) && x.testBit (j - k))) := by
  rw [shl32, u32, Nat.testBit_mod_two_pow, Nat.testBit_shiftLeft]

theorem shl32_lt (x k : Nat) : shl32 x k < 2 ^ 32 := Nat.mod_lt _ (by decide)

theorem pocsag_addrtemp_lt (capcode functionbits : Nat) :
    pocsag_addrtemp capcode functionbits < 2 ^ 32 :=
  Nat.or_lt_two_pow (shl32_lt _ _) (shl32_lt _ _)

theorem pocsag_addrtemp_and_top21 (capcode functionbits : Nat) :
    pocsag_addrtemp capcode functionbits &&& 0xFFFFF800
      = pocsag_addrtemp capcode functionbits := by
  apply Nat.eq_of_testBit_eq
  intro j
  rw [Nat.testBit_and, testBit_top21_mask, pocsag_addrtemp, Nat.testBit_or, testBit_shl32,
    testBit_shl32]
  by_cases h1 : 11 ≤ j
  · by_cases h2 : j < 32
    · simp [h1, h2]
    · simp [h1, h2]
  · have h3 : ¬ 13 ≤ j := by omega
    simp [h1, h3]

theorem address_check_passes (u : Utils) (hu : EncodewordKeepsData u.encodeword)
    (capcode functionbits : Nat) :
    u.encodeword (pocsag_addrtemp capcode functionbits) &&& 0xFFFFF800
      = pocsag_addrtemp capcode functionbits := by
  rw [hu _ (pocsag_addrtemp_lt _ _), pocsag_addrtemp_and_top21]

theorem queue_batch_ok (u : Utils) (st : flexencode_impl)
    (hty : st.d_msgtype = .Numeric ∨ st.d_msgtype = .Alpha)
    (hchk : u.encodeword (pocsag_addrtemp st.d_capcode (function_bits st.d_msgtype))
      &&& 0xFFFFF800 = pocsag_addrtemp st.d_capcode (function_bits st.d_msgtype)) :
    queue_batch u st
      = (none, append_logical st
          (preamble ++ words_bits ((batch_groups u st).flatMap
            (fun g => POCSAG_SYNCWORD :: g)))) := by
  have hlen : ((msg_words u st).drop (16 - ((st.d_capcode &&& 7) * 2 + 1))).length
      ≤ (msg_words u st).length := by rw [List.length_drop]; omega
  have key : ∀ (mw : List Nat) (fb : Nat), body_words u st = mw →
      function_bits st.d_msgtype = fb →
      (let msgwords := mw ++ [POCSAG_IDLEWORD]
       let addrtemp := pocsag_addrtemp st.d_capcode fb
       let addrword := u.encodeword addrtemp
       let frameoffset := st.d_capcode &&& 7
       if addrword &&& 0xFFFFF800 = addrtemp then
         let st1 := queue_bvec st preamble
         let st2 := queue_u32 st1 POCSAG_SYNCWORD
         let st3 := idle_pairs frameoffset st2
         let st4 := queue_u32 st3 addrword
         let r := fill_slots (16 - (frameoffset * 2 + 1)) msgwords st4
         let r2 := resync_loop msgwords.length r.2 r.1
         ((none : Option error), r2.1)
       else
         (some error.address_word_check, st))
      = (none, append_logical st
          (preamble ++ words_bits ((batch_groups u st).flatMap
            (fun g => POCSAG_SYNCWORD :: g)))) := by
    intro mw fb hb hf
    rw [msg_words, hb] at hlen
    rw [hf] at hchk
    simp only [hchk, if_true]
    rw [queue_bvec_eq, queue_u32_eq, idle_pairs_eq, queue_u32_eq, fill_slots_eq,
      resync_loop_eq _ _ _ hlen]
    simp only [append_logical_append, batch_groups, first_group, msg_words, address_word, hb,
      hf, List.flatMap_cons, List.cons_append, words_bits_cons, words_bits_append,
      List.append_assoc]
  rcases hty with hty | hty
  · have := key (u.make_numeric_message st.d_message) 0 (by rw [body_words, hty])
      (by rw [hty]; rfl)
    simpa only [queue_batch, hty] using this
  · have := key (u.make_alpha_message st.d_message) 3 (by rw [body_words, hty])
      (by rw [hty]; rfl)
    simpa only [queue_batch, hty] using this

theorem queue_batch_check_fails (u : Utils) (st : flexencode_impl)
    (hty : st.d_msgtype = .Numeric ∨ st.d_msgtype = .Alpha)
    (hchk : ¬ u.encodeword (pocsag_addrtemp st.d_capcode (function_bits st.d_msgtype))
      &&& 0xFFFFF800 = pocsag_addrtemp st.d_capcode (function_bits st.d_msgtype)) :
    queue_batch u st = (some .address_word_check, st) := by
  rcases hty with hty | hty
  · rw [hty] at hchk
    simp only [function_bits] at hchk
    simp only [queue_batch, hty, hchk, if_false]
  · rw [hty] at hchk
    simp only [function_bits] at hchk
    simp only [queue_batch, hty, hchk, if_false]

theorem queue_batch_invalid_type (u : Utils) (st : flexencode_impl) (v : Nat)
    (hty : st.d_msgtype = .unknown v) :
    queue_batch u st = (some .invalid_message_type, st) := by
  simp only [queue_batch, hty]

theorem queue_batch_eq (u : Utils) (hu : EncodewordKeepsData u.encodeword)
    (st : flexencode_impl) (hty : st.d_msgtype = .Numeric ∨ st.d_msgtype = .Alpha) :
    queue_batch u st
      = (none, append_logical st
          (preamble ++ words_bits ((batch_groups u st).flatMap
            (fun g => POCSAG_SYNCWORD :: g)))) :=
  queue_batch_ok u st hty (address_check_passes u hu _ _)

theorem batch_groups_spec (u : Utils) (st : flexencode_impl) :
    (batch_groups u st).length
      = group_count (st.d_capcode &&& 7) (body_words u st).length ∧
    (∀ g ∈ batch_groups u st, g.length = 16) ∧
    (batch_groups u st).flatten
      = List.replicate (2 * (st.d_capcode &&& 7)) POCSAG_IDLEWORD
        ++ address_word u st :: (body_words u st ++ List.replicate
          (16 * group_count (st.d_capcode &&& 7) (body_words u st).length
            - (2 * (st.d_capcode &&& 7) + 1 + (body_words u st).length)) POCSAG_IDLEWORD) ∧
    1 ≤ 16 * group_count (st.d_capcode &&& 7) (body_words u st).length
      - (2 * (st.d_capcode &&& 7) + 1 + (body_words u st).length) := by
  simp only [batch_groups, first_group, msg_words]
  have hfo : st.d_capcode &&& 7 ≤ 7 := by rw [and_0x7]; omega
  generalize st.d_capcode &&& 7 = fo at hfo ⊢
  generalize address_word u st = addr
  generalize body_words u st = body
  have hmw : (body ++ [POCSAG_IDLEWORD]).length = body.length + 1 := by simp
  have hlen : ((body ++ [POCSAG_IDLEWORD]).drop (16 - (fo * 2 + 1))).length
      ≤ (body ++ [POCSAG_IDLEWORD]).length := by rw [List.length_drop]; omega
  obtain ⟨h1, h2, h3⟩ := later_groups_spec _ _ hlen
  simp only [List.length_drop, hmw] at h1 h2 h3 ⊢
  refine ⟨?_, ?_, ?_, ?_⟩
  · rw [List.length_cons, h2, group_count]; omega
  · intro g hg
    rcases List.mem_cons.mp hg with hg | hg
    · rw [hg, List.length_append, List.length_replicate, List.length_cons, List.length_append,
        List.length_take, List.length_replicate, hmw]
      omega
    · exact h1 g hg
  · rw [List.flatten_cons, h3, group_count]
    by_cases hc : body.length + 1 ≤ 16 - (fo * 2 + 1)
    · have e1 : (body ++ [POCSAG_IDLEWORD]).take (16 - (fo * 2 + 1))
          = body ++ [POCSAG_IDLEWORD] := List.take_of_length_le (by rw [hmw]; exact hc)
      have e2 : (body ++ [POCSAG_IDLEWORD]).drop (16 - (fo * 2 + 1)) = [] :=
        List.drop_of_length_le (by rw [hmw]; exact hc)
      have e3 : 16 * ((body.length + 1 - (16 - (fo * 2 + 1)) + 15) / 16)
          - (body.length + 1 - (16 - (fo * 2 + 1))) = 0 := by omega
      have e4 : 16 * ((2 * fo + 2 + body.length + 15) / 16) - (2 * fo + 1 + body.length)
          = (16 - (fo * 2 + 1) - (body.length + 1)) + 1 := by omega
      rw [e1, e2, e3, e4, List.replicate_succ]
      simp
    · have e1 : 16 - (fo * 2 + 1) - (body.length + 1) = 0 := by omega
      have e4 : 16 * ((2 * fo + 2 + body.length + 15) / 16) - (2 * fo + 1 + body.length)
          = (16 * ((body.length + 1 - (16 - (fo * 2 + 1)) + 15) / 16)
            - (body.length + 1 - (16 - (fo * 2 + 1)))) + 1 := by omega
      rw [e1, e4, List.replicate_succ, List.replicate_zero, List.append_nil]
      have e5 := List.take_append_drop (16 - (fo * 2 + 1)) (body ++ [POCSAG_IDLEWORD])
      generalize (body ++ [POCSAG_IDLEWORD]).take (16 - (fo * 2 + 1)) = tk at e5 ⊢
      generalize (body ++ [POCSAG_IDLEWORD]).drop (16 - (fo * 2 + 1)) = dr at e5 ⊢
      simp only [List.append_assoc, List.cons_append]
      rw [← List.append_assoc tk dr, e5]
      simp
  · rw [group_count]; omega

set_option maxRecDepth 100000 in
theorem preamble_eq : preamble = (List.replicate 288 [true, false]).flatten := by
  decide

set_option maxRecDepth 100000 in
theorem preamble_length : preamble.length = 576 := by
  rw [preamble_eq]; decide

theorem sync_groups_length (groups : List (List Nat)) (h : ∀ g ∈ groups, g.length = 16) :
    (groups.flatMap (fun g => POCSAG_SYNCWORD :: g)).length = 17 * groups.length := by
  induction groups with
  | nil => rfl
  | cons g gs ih =>
    have hg : g.length = 16 := h g (List.mem_cons_self _ _)
    have := ih (fun g' hg' => h g' (List.mem_cons_of_mem _ hg'))
    rw [List.flatMap_cons, List.length_append, this, List.length_cons, hg, List.length_cons]
    omega

theorem pocsag_addrtemp_eq (capcode functionbits : Nat) :
    pocsag_addrtemp capcode functionbits
      = capcode / 8 % 2 ^ 19 * 2 ^ 13 + functionbits % 4 * 2 ^ 11 := by
  have e1 : shl32 (capcode >>> 3) 13 = capcode / 8 % 2 ^ 19 * 2 ^ 13 := by
    simp only [shl32, u32, Nat.shiftLeft_eq, Nat.shiftRight_eq_div_pow, Nat.reducePow]
    omega
  have e2 : shl32 (functionbits &&& 3) 11 = functionbits % 4 * 2 ^ 11 := by
    simp only [shl32, u32, Nat.shiftLeft_eq, and_0x3, Nat.reducePow]
    omega
  rw [pocsag_addrtemp, e1, e2]
  apply or_low_eq_add _ _ 13
  · simp only [Nat.reducePow]; omega
  · simp only [Nat.reducePow]; omega

theorem queue_batch_logical_length (u : Utils) (st : flexencode_impl) :
    (preamble ++ words_bits ((batch_groups u st).flatMap
      (fun g => POCSAG_SYNCWORD :: g))).length
      = 576 + 544 * group_count (st.d_capcode &&& 7) (body_words u st).length := by
  obtain ⟨h1, h2, _, _⟩ := batch_groups_spec u st
  rw [List.length_append, preamble_length, words_bits_length, sync_groups_length _ h2, h1]
  omega

/-! ## C4 : header of a POCSAG batch -/

/-- C4: for a valid message type (and an `encodeword` that keeps its data bits, so that the
assertion holds) `queue_batch` on an empty queue succeeds and queues, in this order, the
576-bit preamble ("10" repeated 288 times), the 32 bits of the sync word 0x7CD215D8, and
the bits of at least 16 slot words, of which the first `2 * (capcode & 7)` are idle words
0x7A89C197 and the next one, slot number `2 * (capcode & 7) + 1` counting from 1, is the
address word. For capcode 425321 the offset is 1 and the address word is the 3rd slot. -/
theorem queue_batch_header (u : Utils) (hu : EncodewordKeepsData u.encodeword)
    (st : flexencode_impl) (hty : st.d_msgtype = .Numeric ∨ st.d_msgtype = .Alpha)
    (hq : st.d_bitqueue = []) :
    (queue_batch u st).1 = none ∧
    ∃ tail : List Nat,
      (queue_batch u st).2.d_bitqueue
        = replicate_bits (st.d_symrate / st.d_baudrate)
            ((List.replicate 288 [true, false]).flatten ++ word_bits 0x7CD215D8
              ++ words_bits (List.replicate (2 * (st.d_capcode &&& 7)) 0x7A89C197)
              ++ word_bits (address_word u st) ++ words_bits tail) ∧
      16 ≤ (List.replicate (2 * (st.d_capcode &&& 7)) 0x7A89C197
            ++ address_word u st :: tail).length ∧
      (List.replicate (2 * (st.d_capcode &&& 7)) 0x7A89C197
          ++ address_word u st :: tail)[2 * (st.d_capcode &&& 7)]? = some (address_word u st) ∧
      (st.d_capcode = 425321 →
        st.d_capcode &&& 7 = 1 ∧
        (List.replicate (2 * (st.d_capcode &&& 7)) 0x7A89C197
          ++ address_word u st :: tail)[2]? = some (address_word u st)) := by
  have hidx : ∀ (n : Nat) (tail : List Nat),
      (List.replicate n 0x7A89C197 ++ address_word u st :: tail)[n]?
        = some (address_word u st) := by
    intro n tail
    rw [List.getElem?_append_right (by simp)]
    simp
  refine ⟨by rw [queue_batch_eq u hu st hty], ?_⟩
  refine ⟨((msg_words u st).take (16 - ((st.d_capcode &&& 7) * 2 + 1))
        ++ List.replicate (16 - ((st.d_capcode &&& 7) * 2 + 1) - (msg_words u st).length)
          POCSAG_IDLEWORD)
      ++ (later_groups (msg_words u st).length
        ((msg_words u st).drop (16 - ((st.d_capcode &&& 7) * 2 + 1)))).flatMap
          (fun g => POCSAG_SYNCWORD :: g), ?_, ?_, hidx _ _, ?_⟩
  · rw [queue_batch_eq u hu st hty, append_logical, append_bits, hq, List.nil_append, interp,
      preamble_eq, batch_groups, first_group, List.flatMap_cons, List.cons_append,
      words_bits_cons, words_bits_append, words_bits_append, words_bits_cons,
      words_bits_append]
    simp only [POCSAG_SYNCWORD, POCSAG_IDLEWORD, List.append_assoc, words_bits_append]
  · have hfo : st.d_capcode &&& 7 ≤ 7 := by rw [and_0x7]; omega
    simp only [List.length_append, List.length_replicate, List.length_cons, List.length_take]
    omega
  · intro hc
    have e : st.d_capcode &&& 7 = 1 := by rw [hc]; decide
    refine ⟨e, ?_⟩
    have := hidx (2 * (st.d_capcode &&& 7))
    rw [e] at this ⊢
    exact this _

/-- Witness for C4: the default capcode 425321 with an Alpha message and the sample
collaborators, on an empty queue. -/
theorem queue_batch_header_witness :
    EncodewordKeepsData sample_utils.encodeword ∧
    (queue_batch sample_utils ⟨1600, 425321, .Alpha, "hello", 6400, []⟩).1 = none :=
  ⟨sample_encodeword_keeps_data,
    (queue_batch_header sample_utils sample_encodeword_keeps_data
      ⟨1600, 425321, .Alpha, "hello", 6400, []⟩ (Or.inr rfl) rfl).1⟩

/-! ## C5 : group structure of a POCSAG batch -/

/-- C5: for a valid message type whose encoder returns `m` body words (and an `encodeword`
that keeps its data bits), with `fo = capcode & 7` and `k = ceil((2*fo + 2 + m) / 16)`,
`queue_batch` succeeds and appends the preamble followed by exactly `k` groups of one sync
word 0x7CD215D8 and 16 slot words, `576 + 544 * k` logical bits in all; the slot words of
all groups in order are `2*fo` idle words, the address word, the `m` body words in the
encoder's order, and then `p ≥ 1` idle words 0x7A89C197 up to the end of the last group. -/
theorem queue_batch_groups (u : Utils) (hu : EncodewordKeepsData u.encodeword)
    (st : flexencode_impl) (hty : st.d_msgtype = .Numeric ∨ st.d_msgtype = .Alpha) :
    (queue_batch u st).1 = none ∧
    ∃ (k p : Nat) (groups : List (List Nat)),
      16 * (k - 1) < 2 * (st.d_capcode &&& 7) + 2 + (body_words u st).length ∧
      2 * (st.d_capcode &&& 7) + 2 + (body_words u st).length ≤ 16 * k ∧
      (queue_batch u st).2.d_bitqueue
        = st.d_bitqueue ++ replicate_bits (st.d_symrate / st.d_baudrate)
            (preamble ++ words_bits (groups.flatMap (fun g => 0x7CD215D8 :: g))) ∧
      groups.length = k ∧
      (∀ g ∈ groups, g.length = 16) ∧
      groups.flatten
        = List.replicate (2 * (st.d_capcode &&& 7)) 0x7A89C197
          ++ address_word u st :: (body_words u st ++ List.replicate p 0x7A89C197) ∧
      1 ≤ p ∧
      (preamble ++ words_bits (groups.flatMap (fun g => 0x7CD215D8 :: g))).length
        = 576 + 544 * k := by
  obtain ⟨h1, h2, h3, h4⟩ := batch_groups_spec u st
  refine ⟨by rw [queue_batch_eq u hu st hty], ?_⟩
  refine ⟨group_count (st.d_capcode &&& 7) (body_words u st).length, _, batch_groups u st,
    ?_, ?_, ?_, h1, h2, h3, h4, queue_batch_logical_length u st⟩
  · rw [group_count]; omega
  · rw [group_count]; omega
  · rw [queue_batch_eq u hu st hty]
    rfl

/-- Witness for C5: the default capcode 425321 with an Alpha message and the sample
collaborators. -/
theorem queue_batch_groups_witness :
    EncodewordKeepsData sample_utils.encodeword ∧
    (queue_batch sample_utils ⟨1600, 425321, .Alpha, "hello", 6400, []⟩).1 = none :=
  ⟨sample_encodeword_keeps_data,
    (queue_batch_groups sample_utils sample_encodeword_keeps_data
      ⟨1600, 425321, .Alpha, "hello", 6400, []⟩ (Or.inr rfl)).1⟩

/-! ## C7 : failures of `queue_batch` leave the queue untouched -/

/-- C7: with a message type that is neither Numeric nor Alpha `queue_batch` fails with the
invalid-message-type error and leaves the state (hence the bit queue) as it was; whenever
`queue_batch` fails, for either reason, the state is unchanged; and whenever it does not
fail, it has appended the complete batch: preamble and all groups of a sync word and 16
slot words, holding the idle words before the address, the address word, every body word
and the idle padding. -/
theorem queue_batch_all_or_nothing (u : Utils) (st : flexencode_impl) :
    (st.d_msgtype ≠ .Numeric ∧ st.d_msgtype ≠ .Alpha →
      queue_batch u st = (some .invalid_message_type, st)) ∧
    (∀ e, (queue_batch u st).1 = some e →
      (e = .invalid_message_type ∨ e = .address_word_check) ∧ (queue_batch u st).2 = st) ∧
    ((queue_batch u st).1 = none →
      ∃ (p : Nat) (groups : List (List Nat)),
        (queue_batch u st).2.d_bitqueue
          = st.d_bitqueue ++ replicate_bits (st.d_symrate / st.d_baudrate)
              (preamble ++ words_bits (groups.flatMap (fun g => 0x7CD215D8 :: g))) ∧
        (∀ g ∈ groups, g.length = 16) ∧
        groups.flatten
          = List.replicate (2 * (st.d_capcode &&& 7)) 0x7A89C197
            ++ address_word u st :: (body_words u st ++ List.replicate p 0x7A89C197) ∧
        1 ≤ p) := by
  have hinv : st.d_msgtype ≠ .Numeric ∧ st.d_msgtype ≠ .Alpha →
      queue_batch u st = (some .invalid_message_type, st) := by
    intro h
    cases hty : st.d_msgtype with
    | Numeric => exact absurd hty h.1
    | Alpha => exact absurd hty h.2
    | unknown v => exact queue_batch_invalid_type u st v hty
  refine ⟨hinv, ?_, ?_⟩
  · intro e he
    by_cases hty : st.d_msgtype = .Numeric ∨ st.d_msgtype = .Alpha
    · by_cases hchk : u.encodeword (pocsag_addrtemp st.d_capcode (function_bits st.d_msgtype))
          &&& 0xFFFFF800 = pocsag_addrtemp st.d_capcode (function_bits st.d_msgtype)
      · rw [queue_batch_ok u st hty hchk] at he
        cases he
      · rw [queue_batch_check_fails u st hty hchk] at he ⊢
        cases he
        exact ⟨Or.inr rfl, rfl⟩
    · have h2 := hinv (not_or.mp hty)
      rw [h2] at he ⊢
      cases he
      exact ⟨Or.inl rfl, rfl⟩
  · intro hok
    by_cases hty : st.d_msgtype = .Numeric ∨ st.d_msgtype = .Alpha
    · by_cases hchk : u.encodeword (pocsag_addrtemp st.d_capcode (function_bits st.d_msgtype))
          &&& 0xFFFFF800 = pocsag_addrtemp st.d_capcode (function_bits st.d_msgtype)
      · obtain ⟨_, h2, h3, h4⟩ := batch_groups_spec u st
        refine ⟨_, batch_groups u st, ?_, h2, h3, h4⟩
        rw [queue_batch_ok u st hty hchk]
        rfl
      · rw [queue_batch_check_fails u st hty hchk] at hok
        cases hok
    · rw [hinv (not_or.mp hty)] at hok
      cases hok

/-- Witness for C7: an encoder whose message type is the unrecognised value 7, with three
entries already in its queue. -/
theorem queue_batch_all_or_nothing_witness :
    queue_batch sample_utils ⟨1600, 425321, .unknown 7, "hello", 6400, [true, false, true]⟩
      = (some .invalid_message_type,
          ⟨1600, 425321, .unknown 7, "hello", 6400, [true, false, true]⟩) :=
  (queue_batch_all_or_nothing sample_utils
    ⟨1600, 425321, .unknown 7, "hello", 6400, [true, false, true]⟩).1
    ⟨by decide, by decide⟩

/-! ## C8 : `queue_batch` has no range check on the capcode -/

/-- C8, as stated, fails: with the capcode `2^21 = 2097152`, which does not fit in 21 bits,
an Alpha message and the sample collaborators, `queue_batch` on an empty queue raises no
error and queues a whole batch of `4 * (576 + 544) = 4480` entries. -/
theorem queue_batch_accepts_large_capcode :
    (queue_batch sample_utils ⟨1600, 2097152, .Alpha, "hello", 6400, []⟩).1 = none ∧
    (queue_batch sample_utils ⟨1600, 2097152, .Alpha, "hello", 6400, []⟩).2.d_bitqueue.length
      = 4480 := by
  rw [queue_batch_eq sample_utils sample_encodeword_keeps_data _ (Or.inr rfl)]
  refine ⟨rfl, ?_⟩
  rw [append_logical, append_bits]
  simp only [List.nil_append]
  rw [replicate_bits_length, queue_batch_logical_length]
  decide

/-- C8, amended: `queue_batch` makes no range check on the capcode. For every capcode of
`2^21` or more, with a valid message type and an `encodeword` that keeps its data bits, it
raises no error and appends a complete batch (preamble and `k ≥ 1` groups of a sync word
and 16 slots, with the address word behind `2 * (capcode & 7)` idle words). No run of
`queue_batch` raises a range error. -/
theorem queue_batch_large_capcode (u : Utils) (hu : EncodewordKeepsData u.encodeword)
    (st : flexencode_impl) (hty : st.d_msgtype = .Numeric ∨ st.d_msgtype = .Alpha)
    (_hcap : 2 ^ 21 ≤ st.d_capcode) :
    (queue_batch u st).1 = none ∧
    (∃ (k p : Nat) (groups : List (List Nat)),
      (queue_batch u st).2.d_bitqueue
        = st.d_bitqueue ++ replicate_bits (st.d_symrate / st.d_baudrate)
            (preamble ++ words_bits (groups.flatMap (fun g => 0x7CD215D8 :: g))) ∧
      groups.length = k ∧ 1 ≤ k ∧
      (∀ g ∈ groups, g.length = 16) ∧
      groups.flatten
        = List.replicate (2 * (st.d_capcode &&& 7)) 0x7A89C197
          ++ address_word u st :: (body_words u st ++ List.replicate p 0x7A89C197)) ∧
    (∀ (u' : Utils) (st' : flexencode_impl),
      (queue_batch u' st').1 ≠ some .short_address_out_of_range) := by
  obtain ⟨h1, h2, h3, _⟩ := batch_groups_spec u st
  refine ⟨by rw [queue_batch_eq u hu st hty], ⟨_, _, batch_groups u st, ?_, h1, ?_, h2, h3⟩,
    ?_⟩
  · rw [queue_batch_eq u hu st hty]
    rfl
  · rw [group_count]; omega
  · intro u' st' he
    by_cases hty' : st'.d_msgtype = .Numeric ∨ st'.d_msgtype = .Alpha
    · by_cases hchk : u'.encodeword
          (pocsag_addrtemp st'.d_capcode (function_bits st'.d_msgtype))
          &&& 0xFFFFF800 = pocsag_addrtemp st'.d_capcode (function_bits st'.d_msgtype)
      · rw [queue_batch_ok u' st' hty' hchk] at he
        cases he
      · rw [queue_batch_check_fails u' st' hty' hchk] at he
        cases he
    · cases hty2 : st'.d_msgtype with
      | Numeric => exact hty' (Or.inl hty2)
      | Alpha => exact hty' (Or.inr hty2)
      | unknown v =>
        rw [queue_batch_invalid_type u' st' v hty2] at he
        cases he

/-- Witness for C8 (amended): the capcode `2^21 + 5` with a Numeric message and the sample
collaborators. -/
theorem queue_batch_large_capcode_witness :
    EncodewordKeepsData sample_utils.encodeword ∧ 2 ^ 21 ≤ 2097157 ∧
    (queue_batch sample_utils ⟨1600, 2097157, .Numeric, "12345", 6400, []⟩).1 = none :=
  ⟨sample_encodeword_keeps_data, by decide,
    (queue_batch_large_capcode sample_utils sample_encodeword_keeps_data
      ⟨1600, 2097157, .Numeric, "12345", 6400, []⟩ (Or.inl rfl) (by decide)).1⟩

/-! ## Helper lemmas on the FLEX batch, construction and output -/

theorem make_short_address_flex (u : Utils) :
    make_short_address u 1337331 = .ok (u.encodeword (reverse_bits32 1337331)) := by
  simp only [make_short_address]
  rfl

theorem flex_block_eq (u : Utils) (st : flexencode_impl) :
    flex_block u st = (none, append_logical st (flex_block_bits u)) := by
  simp only [flex_block, make_short_address_flex, queue_u32_eq, queue_bvec_eq,
    append_logical_append, flex_block_bits, words_bits_cons, words_bits_nil, List.append_nil,
    List.append_assoc]

theorem flex_blocks_eq (u : Utils) (n : Nat) : ∀ st,
    flex_blocks u n st
      = (none, append_logical st (List.replicate n (flex_block_bits u)).flatten) := by
  induction n with
  | zero => intro st; simp [flex_blocks, append_logical_nil]
  | succ n ih =>
    intro st
    simp only [flex_blocks, and_then, flex_block_eq, ih, append_logical_append,
      List.replicate_succ, List.flatten_cons]

theorem flex_frame_eq (u : Utils) (frame : Nat) (st : flexencode_impl) :
    flex_frame u frame st = (none, append_logical st (flex_frame_bits u frame)) := by
  simp only [flex_frame, queue_u32_eq, queue_bvec_eq, flex_blocks_eq, append_logical_append,
    flex_frame_bits, flex_header_bits, List.append_assoc]


theorem flex_frames_zero (u : Utils) (frame : Nat) (st : flexencode_impl) :
    flex_frames u 0 frame st = (none, st) := by
  rw [flex_frames]

theorem flex_frames_succ (u : Utils) (n frame : Nat) (st : flexencode_impl) :
    flex_frames u (n + 1) frame st
      = and_then (flex_frame u frame st) (fun st => flex_frames u n (frame + 1) st) := by
  rw [flex_frames]

theorem flex_frames_eq (u : Utils) (n : Nat) : ∀ frame st,
    flex_frames u n frame st = (none, append_logical st (flex_frames_bits u n frame)) := by
  induction n with
  | zero =>
    intro frame st
    rw [flex_frames_zero, flex_frames_bits, append_logical_nil]
  | succ n ih =>
    intro frame st
    rw [flex_frames_succ, flex_frame_eq, and_then]
    rw [ih, append_logical_append, flex_frames_bits]

theorem queue_flex_batch_eq (u : Utils) (st : flexencode_impl) :
    queue_flex_batch u st = (none, append_logical st (flex_frames_bits u 10 0)) := by
  rw [queue_flex_batch, flex_frames_eq]

theorem constructor_body_eq (u : Utils) (st : flexencode_impl) :
    constructor_body u st
      = if st.d_symrate % st.d_baudrate ≠ 0 then (some .rate_not_divisible, st)
        else (none, append_logical st (flex_frames_bits u 10 0)) := by
  rw [constructor_body, queue_flex_batch_eq]

theorem construct_eq (u : Utils) (baudrate capcode : Nat) (msgtype : msgtype_t)
    (message : String) (symrate : Nat) :
    construct u baudrate capcode msgtype message symrate
      = if symrate % baudrate ≠ 0 then
          (some .rate_not_divisible, ⟨baudrate, capcode, msgtype, message, symrate, []⟩)
        else
          (none, append_logical ⟨baudrate, capcode, msgtype, message, symrate, []⟩
            (flex_frames_bits u 10 0)) := by
  rw [construct, constructor_body_eq]

theorem append_logical_queue (st : flexencode_impl) (bits : List Bool) :
    (append_logical st bits).d_bitqueue
      = st.d_bitqueue ++ replicate_bits (st.d_symrate / st.d_baudrate) bits := rfl

theorem work_loop_eq (n : Nat) : ∀ (out : List Nat) (st : flexencode_impl),
    work_loop n out st
      = (out ++ (st.d_bitqueue.take n).map symbol_of,
          { st with d_bitqueue := st.d_bitqueue.drop n }) := by
  induction n with
  | zero => intro out st; simp [work_loop]
  | succ n ih =>
    intro out st
    rcases st with ⟨bd, cc, mt, msg, sr, q⟩
    cases q with
    | nil => simp [work_loop]
    | cons bbit rest => simp [work_loop, ih]

theorem work_symbols (n : Nat) (st : flexencode_impl) :
    (work n st).2.1 = (st.d_bitqueue.take n).map symbol_of := by
  rw [work]
  cases hq : st.d_bitqueue with
  | nil => simp
  | cons bbit rest =>
    simp only [List.isEmpty_cons, Bool.false_eq_true, if_false, work_loop_eq, List.nil_append,
      hq]
    split
    · rfl
    · rw [List.take_of_length_le (Nat.le_refl _), List.take_of_length_le (by omega)]

theorem mk_default_eq (u : Utils) :
    flexencode_impl.mk_default u
      = (none, append_logical ⟨1600, 425321, .Alpha, "hello", 6400, []⟩
          (flex_frames_bits u 10 0)) := by
  rw [flexencode_impl.mk_default, construct_eq]
  rfl

theorem default_rate_queue (bits : List Bool) :
    (append_logical ⟨1600, 425321, .Alpha, "hello", 6400, []⟩ bits).d_bitqueue
      = replicate_bits 4 bits := by
  rw [append_logical_queue]
  simp only [List.nil_append, Nat.reduceDiv]

theorem mk_default_state (u : Utils) :
    (flexencode_impl.mk_default u).2
      = append_logical ⟨1600, 425321, .Alpha, "hello", 6400, []⟩
          (flex_frames_bits u 10 0) := by
  rw [mk_default_eq]

theorem mk_default_queue (u : Utils) :
    (flexencode_impl.mk_default u).2.d_bitqueue
      = replicate_bits 4 (flex_frames_bits u 10 0) := by
  rw [mk_default_state, default_rate_queue]

theorem flex_frames_bits_head (u : Utils) :
    ∃ rest, flex_frames_bits u 10 0 = (bit_sync_1 ++ a1) ++ rest := by
  refine ⟨b ++ a1_inv ++ word_bits (make_fiw u 0 0 0 0 0) ++ cblock
    ++ (List.replicate 11 (flex_block_bits u)).flatten ++ flex_frames_bits u 9 1, ?_⟩
  rw [flex_frames_bits, flex_frame_bits, flex_header_bits]
  simp only [List.append_assoc]

theorem flex_sync_head_length : (replicate_bits 4 (bit_sync_1 ++ a1)).length = 256 := by
  rw [replicate_bits_length]
  decide

theorem default_stream_head (u : Utils) (n : Nat) (h : 256 ≤ n) :
    ((work n (flexencode_impl.mk_default u).2).2.1).take 256
      = (replicate_bits 4 (bit_sync_1 ++ a1)).map symbol_of := by
  obtain ⟨rest, hrest⟩ := flex_frames_bits_head u
  rw [work_symbols, mk_default_queue, hrest, replicate_bits_append, ← List.map_take,
    List.take_take, Nat.min_eq_left h, List.take_left' flex_sync_head_length]

theorem preamble_split :
    preamble = (List.replicate 32 [true, false]).flatten
      ++ (List.replicate 256 [true, false]).flatten := by
  rw [preamble_eq, ← List.flatten_append, ← List.replicate_add]

set_option maxRecDepth 100000 in
theorem pocsag_head_length :
    (replicate_bits 4 (List.replicate 32 [true, false]).flatten).length = 256 := by
  rw [replicate_bits_length]
  decide

set_option maxRecDepth 100000 in
theorem flex_head_ne_pocsag_head :
    (replicate_bits 4 (bit_sync_1 ++ a1)).map symbol_of
      ≠ (replicate_bits 4 (List.replicate 32 [true, false]).flatten).map symbol_of := by
  decide

/-! ## C6 : the stream of the default encoder -/

/-- C6, as stated, fails: the encoder built by the constructor with its defaults (and the
sample collaborators) is built without error, but the 120000 symbols that `work` drains
from it do not begin with the polar encoding of the POCSAG preamble and sync word: the
constructor runs `queue_flex_batch`, so symbol 128 is that of bit `0` of the FLEX word A1
where the POCSAG preamble has a bit `1`. -/
theorem default_stream_not_pocsag :
    (flexencode_impl.mk_default sample_utils).1 = none ∧
    ¬ ∃ rest, (work 120000 (flexencode_impl.mk_default sample_utils).2).2.1
      = (replicate_bits 4 (preamble ++ word_bits 0x7CD215D8)).map symbol_of ++ rest := by
  refine ⟨by rw [mk_default_eq], ?_⟩
  rintro ⟨rest, h⟩
  have h2 := default_stream_head sample_utils 120000 (by decide)
  rw [h, preamble_split, List.append_assoc, replicate_bits_append, List.map_append,
    List.append_assoc, List.take_left' (by rw [List.length_map, pocsag_head_length])] at h2
  exact flex_head_ne_pocsag_head h2.symm

/-- C6, amended: the encoder built by the constructor with its defaults is built without
error, and the symbols that `work` drains from it (at least 256 requested) begin with the
polar encoding of the 32-bit FLEX bit-sync pattern ("10" repeated 16 times), followed
immediately by the polar encoding of the 32 bits of the FLEX frame-sync word A1
(0x78F35939, most significant bit first), each bit repeated 4 times; bit 0 is written as
1 and bit 1 as the `unsigned char` value of -1. -/
theorem default_stream_begins_with_flex_sync (u : Utils) (n : Nat) (h : 256 ≤ n) :
    (flexencode_impl.mk_default u).1 = none ∧
    (∃ rest, (work n (flexencode_impl.mk_default u).2).2.1
      = (replicate_bits 4 (bit_sync_1 ++ a1)).map symbol_of ++ rest) ∧
    bit_sync_1 = (List.replicate 16 [true, false]).flatten ∧
    a1 = word_bits 0x78F35939 ∧
    symbol_of false = 1 ∧ symbol_of true = 255 := by
  refine ⟨by rw [mk_default_eq],
    ⟨((work n (flexencode_impl.mk_default u).2).2.1).drop 256, ?_⟩,
    by decide, by decide, by decide, by decide⟩
  rw [← default_stream_head u n h, List.take_append_drop]

/-- Witness for C6 (amended): the whole queue of 120000 entries drained in one call, with
the sample collaborators. -/
theorem default_stream_begins_with_flex_sync_witness :
    256 ≤ 120000 ∧
    ∃ rest, (work 120000 (flexencode_impl.mk_default sample_utils).2).2.1
      = (replicate_bits 4 (bit_sync_1 ++ a1)).map symbol_of ++ rest :=
  ⟨by decide, (default_stream_begins_with_flex_sync sample_utils 120000 (by decide)).2.1⟩

/-! ## C9 : the rate check of the constructor -/

/-- C9: for a baud rate above 0, construction (with any initial values of the other
members) succeeds exactly when the symbol rate is a multiple of the baud rate; when it is
not, construction fails with the rate error and the queue is empty. Baud rate 1600 with
symbol rate 6400 succeeds, with symbol rate 6401 it fails. -/
theorem construct_rate_check (u : Utils) (baudrate capcode : Nat) (msgtype : msgtype_t)
    (message : String) (symrate : Nat) (_hb : 0 < baudrate) :
    ((construct u baudrate capcode msgtype message symrate).1 = none ↔ baudrate ∣ symrate) ∧
    (¬ baudrate ∣ symrate →
      (construct u baudrate capcode msgtype message symrate).1 = some .rate_not_divisible ∧
      (construct u baudrate capcode msgtype message symrate).2.d_bitqueue = []) ∧
    (construct u 1600 capcode msgtype message 6400).1 = none ∧
    (construct u 1600 capcode msgtype message 6401).1 = some .rate_not_divisible ∧
    (construct u 1600 capcode msgtype message 6401).2.d_bitqueue = [] := by
  have hfail : ∀ bd sr, ¬ bd ∣ sr →
      (construct u bd capcode msgtype message sr).1 = some .rate_not_divisible ∧
      (construct u bd capcode msgtype message sr).2.d_bitqueue = [] := by
    intro bd sr h
    have h2 : sr % bd ≠ 0 := fun h3 => h (Nat.dvd_iff_mod_eq_zero.mpr h3)
    rw [construct_eq, if_pos h2]
    exact ⟨rfl, rfl⟩
  have hok : ∀ bd sr, bd ∣ sr → (construct u bd capcode msgtype message sr).1 = none := by
    intro bd sr h
    have h2 : ¬ sr % bd ≠ 0 := fun h3 => h3 (Nat.dvd_iff_mod_eq_zero.mp h)
    rw [construct_eq, if_neg h2]
  refine ⟨⟨?_, hok _ _⟩, hfail _ _, hok _ _ (by decide), (hfail _ _ (by decide)).1,
    (hfail _ _ (by decide)).2⟩
  intro h
  by_contra hd
  rw [(hfail _ _ hd).1] at h
  cases h

/-- Witness for C9: baud rate 1600 and symbol rate 6400 with the defaults of the source
constructor and the sample collaborators. -/
theorem construct_rate_check_witness :
    0 < 1600 ∧ (construct sample_utils 1600 425321 .Alpha "hello" 6400).1 = none :=
  ⟨by decide,
    (construct_rate_check sample_utils 1600 425321 .Alpha "hello" 6400 (by decide)).2.2.1⟩

/-! ## Helper lemmas on `work` -/

theorem work_state (n : Nat) (st : flexencode_impl) :
    (work n st).2.2 = { st with d_bitqueue := st.d_bitqueue.drop n } := by
  rw [work]
  cases hq : st.d_bitqueue with
  | nil =>
    rcases st with ⟨bd, cc, mt, msg, sr, q⟩
    simp only at hq
    subst hq
    simp
  | cons bbit rest =>
    simp only [List.isEmpty_cons, Bool.false_eq_true, if_false, work_loop_eq, hq]
    split
    · rfl
    · rw [List.drop_of_length_le (Nat.le_refl _), List.drop_of_length_le (by omega)]

theorem work_return (n : Nat) (st : flexencode_impl) :
    (work n st).1
      = if st.d_bitqueue = [] then -1 else ((min n st.d_bitqueue.length : Nat) : Int) := by
  rw [work]
  cases hq : st.d_bitqueue with
  | nil => simp
  | cons bbit rest =>
    simp only [List.isEmpty_cons, Bool.false_eq_true, if_false, reduceCtorEq]
    split
    · rw [Nat.min_eq_left (by omega)]
    · rw [Nat.min_eq_right (by omega)]

theorem take_min_length {α : Type} (n : Nat) (l : List α) :
    l.take (min n l.length) = l.take n := by
  by_cases h : n ≤ l.length
  · rw [Nat.min_eq_left h]
  · rw [Nat.min_eq_right (by omega), List.take_of_length_le (Nat.le_refl _),
      List.take_of_length_le (by omega)]

theorem drop_min_length {α : Type} (n : Nat) (l : List α) :
    l.drop (min n l.length) = l.drop n := by
  by_cases h : n ≤ l.length
  · rw [Nat.min_eq_left h]
  · rw [Nat.min_eq_right (by omega), List.drop_of_length_le (Nat.le_refl _),
      List.drop_of_length_le (by omega)]

theorem drain_eq (cs : List Nat) : ∀ st : flexencode_impl,
    drain cs st = (st.d_bitqueue.take cs.sum).map symbol_of := by
  induction cs with
  | nil => intro st; simp [drain]
  | cons c cs ih =>
    intro st
    rw [drain, ih, work_symbols, work_state, List.sum_cons, List.take_add, List.map_append]

/-! ## C11 : chunking invariance of draining -/

/-- C11: for every queue content and every list of chunk sizes, the concatenation of the
symbols written by the successive calls `work(c1)`, ..., `work(cn)` is the first
`min(c1 + ... + cn, |q|)` symbols written by the single call `work(|q|)`; when the chunk
sizes sum to at least `|q|` the two outputs are equal. -/
theorem drain_chunking_invariant (cs : List Nat) (st : flexencode_impl) :
    drain cs st
      = ((work st.d_bitqueue.length st).2.1).take (min cs.sum st.d_bitqueue.length) ∧
    (st.d_bitqueue.length ≤ cs.sum → drain cs st = (work st.d_bitqueue.length st).2.1) := by
  have h1 : drain cs st
      = ((work st.d_bitqueue.length st).2.1).take (min cs.sum st.d_bitqueue.length) := by
    rw [drain_eq, work_symbols, List.take_of_length_le (Nat.le_refl _), ← List.map_take,
      take_min_length]
  refine ⟨h1, ?_⟩
  intro h
  rw [h1, Nat.min_eq_right h]
  apply List.take_of_length_le
  rw [work_symbols, List.length_map, List.length_take]
  omega

/-- Witness for C11: a queue of five entries drained in chunks of 2, 0, 1 and 7. -/
theorem drain_chunking_invariant_witness :
    (5 ≤ [2, 0, 1, 7].sum) ∧
    drain [2, 0, 1, 7] ⟨1600, 425321, .Alpha, "hello", 6400, [true, false, false, true, true]⟩
      = (work 5 ⟨1600, 425321, .Alpha, "hello", 6400, [true, false, false, true, true]⟩).2.1 :=
  ⟨by decide,
    (drain_chunking_invariant [2, 0, 1, 7]
      ⟨1600, 425321, .Alpha, "hello", 6400, [true, false, false, true, true]⟩).2 (by decide)⟩

/-! ## C12 : one call of `work` -/

/-- C12: `work(n)` returns the end-of-stream value -1 and writes nothing exactly when the
queue is empty (the state is then unchanged); otherwise it returns `k = min(n, |q|)`,
writes exactly `k` symbols, symbol `i` being that of the `i`-th queued bit, in queue
order, and leaves the queue with its first `k` entries removed. The symbol of bit 0 is 1
and the symbol of bit 1 is -1 converted to `unsigned char`, the byte that reads -1 as a
signed char. -/
theorem work_spec (n : Nat) (st : flexencode_impl) :
    (((work n st).1 = -1 ∧ (work n st).2.1 = []) ↔ st.d_bitqueue = []) ∧
    (st.d_bitqueue = [] → (work n st).2.2 = st) ∧
    (st.d_bitqueue ≠ [] →
      (work n st).1 = ((min n st.d_bitqueue.length : Nat) : Int) ∧
      (work n st).2.1.length = min n st.d_bitqueue.length ∧
      (work n st).2.1 = (st.d_bitqueue.take (min n st.d_bitqueue.length)).map symbol_of ∧
      (work n st).2.2
        = { st with d_bitqueue := st.d_bitqueue.drop (min n st.d_bitqueue.length) }) ∧
    symbol_of false = to_uchar 1 ∧ symbol_of true = to_uchar (-1) ∧
    as_signed_char (symbol_of false) = 1 ∧ as_signed_char (symbol_of true) = -1 := by
  refine ⟨⟨?_, ?_⟩, ?_, ?_, rfl, rfl, by decide, by decide⟩
  · rintro ⟨h1, _⟩
    rw [work_return] at h1
    by_contra hq
    rw [if_neg hq] at h1
    have : (0 : Int) ≤ ((min n st.d_bitqueue.length : Nat) : Int) := Int.ofNat_nonneg _
    omega
  · intro hq
    rw [work_return, work_symbols, hq]
    simp
  · intro hq
    rw [work]
    simp [hq]
  · intro hq
    refine ⟨?_, ?_, ?_, ?_⟩
    · rw [work_return, if_neg hq]
    · rw [work_symbols, List.length_map, List.length_take]
    · rw [work_symbols, take_min_length]
    · rw [work_state, drop_min_length]

/-- Witness for C12: three symbols requested from a queue of five entries. -/
theorem work_spec_witness :
    (work 3 ⟨1600, 425321, .Alpha, "hello", 6400, [true, false, false, true, true]⟩).2.1
      = ([true, false, false, true, true].take
          (min 3 [true, false, false, true, true].length)).map symbol_of :=
  ((work_spec 3 ⟨1600, 425321, .Alpha, "hello", 6400, [true, false, false, true, true]⟩).2.2.1
    (by decide)).2.2.1

/-! ## Helper lemmas on checksummed data words -/

theorem or_low_nibble_shift (w c : Nat) (hc : c < 2 ^ 4) : (w ||| c) >>> 4 = w >>> 4 := by
  apply Nat.eq_of_testBit_eq
  intro j
  rw [Nat.testBit_shiftRight, Nat.testBit_shiftRight, Nat.testBit_or]
  have : c.testBit (4 + j) = false :=
    Nat.testBit_lt_two_pow (Nat.lt_of_lt_of_le hc (Nat.pow_le_pow_right (by decide) (by omega)))
  rw [this, Bool.or_false]

theorem flex_nibble_sum_congr (w v : Nat) (h : w >>> 4 = v >>> 4) :
    flex_nibble_sum w = flex_nibble_sum v := by
  rw [Nat.shiftRight_eq_div_pow, Nat.shiftRight_eq_div_pow] at h
  simp only [Nat.reducePow] at h
  rw [flex_nibble_sum_eq, flex_nibble_sum_eq]
  have e8 : w / 256 = v / 256 := by omega
  have e12 : w / 4096 = v / 4096 := by omega
  have e16 : w / 65536 = v / 65536 := by omega
  have e20 : w / 1048576 = v / 1048576 := by omega
  rw [h, e8, e12, e16, e20]

theorem checksum_nibble_lt (w : Nat) : not32 (flex_nibble_sum w) &&& 0xf < 2 ^ 4 := by
  rw [and_0xf]
  exact Nat.mod_lt _ (by decide)

/-! ## C15 : `add_flex_checksum` is idempotent -/

/-- C15: applying `add_flex_checksum` twice gives the same word as applying it once: the
operation leaves all bits above bit 3 unchanged, and the nibble sum, computed from bits
4-20 only, is therefore the same for the checksummed word. -/
theorem add_flex_checksum_idempotent (w : Nat) :
    add_flex_checksum (add_flex_checksum w) = add_flex_checksum w ∧
    add_flex_checksum w >>> 4 = w >>> 4 ∧
    flex_nibble_sum (add_flex_checksum w) = flex_nibble_sum w := by
  have h1 : add_flex_checksum w >>> 4 = w >>> 4 := by
    rw [add_flex_checksum]
    exact or_low_nibble_shift _ _ (checksum_nibble_lt w)
  have h2 := flex_nibble_sum_congr _ _ h1
  refine ⟨?_, h1, h2⟩
  have e : ∀ v, add_flex_checksum v = v ||| (not32 (flex_nibble_sum v) &&& 0xf) :=
    fun _ => rfl
  rw [e (add_flex_checksum w), h2, e w, Nat.or_assoc, Nat.or_self]

theorem biw1_dw_eq (priority blockinfo vectorstart carryon collapse : Nat) :
    biw1_dw priority blockinfo vectorstart carryon collapse
      = spec_biw1_data_word (priority % 16) (blockinfo % 4) (vectorstart % 64) (carryon % 4)
          (collapse % 8) := by
  have h1 : priority % 16 < 16 := Nat.mod_lt _ (by decide)
  have h2 : blockinfo % 4 < 4 := Nat.mod_lt _ (by decide)
  have h3 : vectorstart % 64 < 64 := Nat.mod_lt _ (by decide)
  have h4 : carryon % 4 < 4 := Nat.mod_lt _ (by decide)
  have h5 : collapse % 8 < 8 := Nat.mod_lt _ (by decide)
  simp only [biw1_dw, spec_biw1_data_word, and_0xf, and_0x3, and_0x3f, and_0x7, Nat.zero_or]
  generalize priority % 16 = p at h1 ⊢
  generalize blockinfo % 4 = a at h2 ⊢
  generalize vectorstart % 64 = v at h3 ⊢
  generalize carryon % 4 = c at h4 ⊢
  generalize collapse % 8 = l at h5 ⊢
  rw [shl32_of_lt p 4 (by simp only [Nat.reducePow]; omega),
    shl32_of_lt a 8 (by simp only [Nat.reducePow]; omega),
    shl32_of_lt v 10 (by simp only [Nat.reducePow]; omega),
    shl32_of_lt c 16 (by simp only [Nat.reducePow]; omega),
    shl32_of_lt l 18 (by simp only [Nat.reducePow]; omega)]
  rw [or_shl_eq_add _ a 8 (by simp only [Nat.reducePow]; omega),
    or_shl_eq_add _ v 10 (by simp only [Nat.reducePow]; omega),
    or_shl_eq_add _ c 16 (by simp only [Nat.reducePow]; omega),
    or_shl_eq_add _ l 18 (by simp only [Nat.reducePow]; omega)]
  exact add_flex_checksum_eq_add _ (by simp only [Nat.reducePow]; omega)

theorem numeric_vector_dw_eq (vector_type message_start nwords cksum : Nat) :
    numeric_vector_dw vector_type message_start nwords cksum
      = spec_numeric_vector_data_word (vector_type % 8) (message_start % 128) (nwords % 8)
          (cksum % 16) := by
  have h1 : vector_type % 8 < 8 := Nat.mod_lt _ (by decide)
  have h2 : message_start % 128 < 128 := Nat.mod_lt _ (by decide)
  have h3 : nwords % 8 < 8 := Nat.mod_lt _ (by decide)
  have h4 : cksum % 16 < 16 := Nat.mod_lt _ (by decide)
  simp only [numeric_vector_dw, spec_numeric_vector_data_word, and_0xf, and_0x7f, and_0x7,
    Nat.zero_or]
  generalize vector_type % 8 = v at h1 ⊢
  generalize message_start % 128 = m at h2 ⊢
  generalize nwords % 8 = n at h3 ⊢
  generalize cksum % 16 = c at h4 ⊢
  rw [shl32_of_lt v 4 (by simp only [Nat.reducePow]; omega),
    shl32_of_lt m 7 (by simp only [Nat.reducePow]; omega),
    shl32_of_lt n 14 (by simp only [Nat.reducePow]; omega),
    shl32_of_lt c 17 (by simp only [Nat.reducePow]; omega)]
  rw [or_shl_eq_add _ m 7 (by simp only [Nat.reducePow]; omega),
    or_shl_eq_add _ n 14 (by simp only [Nat.reducePow]; omega),
    or_shl_eq_add _ c 17 (by simp only [Nat.reducePow]; omega)]
  exact add_flex_checksum_eq_add _ (by simp only [Nat.reducePow]; omega)

theorem add_low_nibble_div_more (D k : Nat) (hD : D % 16 = 0) (hk : k < 16) :
    (D + k) / 128 = D / 128 ∧ (D + k) / 1024 = D / 1024 ∧ (D + k) / 16384 = D / 16384 ∧
    (D + k) / 262144 = D / 262144 ∧ (D + k) / 2097152 = D / 2097152 := by
  refine ⟨?_, ?_, ?_, ?_, ?_⟩ <;> omega

theorem checksummed_word_valid (D : Nat) (hD : D % 16 = 0) :
    flex_check_sum (D + spec_flex_checksum D) % 16 = 15 ∧
    (D + spec_flex_checksum D) &&& 0xf = spec_flex_checksum D := by
  obtain ⟨e0, e4, e8, e12, _, e16, _, e20⟩ :=
    add_low_nibble_div D _ hD (spec_flex_checksum_lt D)
  simp only [flex_check_sum, and_0xf, and_0x1, Nat.shiftRight_eq_div_pow, Nat.reducePow, e0,
    e4, e8, e12, e16, e20]
  refine ⟨?_, trivial⟩
  simp only [spec_flex_checksum, Nat.reducePow]
  generalize D / 16 % 16 = n1
  generalize D / 256 % 16 = n2
  generalize D / 4096 % 16 = n3
  generalize D / 65536 % 16 = n4
  generalize D / 1048576 % 2 = n5
  omega

theorem reverse_bits32_low_clear (x : Nat) (h : x < 2 ^ 21) :
    reverse_bits32 x &&& 0x7FF = 0 := by
  apply Nat.eq_of_testBit_eq
  intro j
  have e : (0x7FF : Nat) = 2 ^ 11 - 1 := by decide
  rw [e, Nat.testBit_and, Nat.testBit_two_pow_sub_one, testBit_reverse_bits32,
    Nat.zero_testBit]
  by_cases h1 : j < 11
  · have h2 : x.testBit (31 - j) = false :=
      Nat.testBit_lt_two_pow (Nat.lt_of_lt_of_le h (Nat.pow_le_pow_right (by decide) (by omega)))
    simp [h2]
  · simp [h1]

theorem spec_biw1_fields (p a v c l : Nat)
    (h1 : p < 16) (h2 : a < 4) (h3 : v < 64) (h4 : c < 4) (h5 : l < 8) :
    (spec_biw1_data_word p a v c l >>> 4) &&& 0xf = p ∧
    (spec_biw1_data_word p a v c l >>> 8) &&& 0x3 = a ∧
    (spec_biw1_data_word p a v c l >>> 10) &&& 0x3f = v ∧
    (spec_biw1_data_word p a v c l >>> 16) &&& 0x3 = c ∧
    (spec_biw1_data_word p a v c l >>> 18) &&& 0x7 = l ∧
    spec_biw1_data_word p a v c l >>> 21 = 0 ∧
    spec_biw1_data_word p a v c l < 2 ^ 21 ∧
    flex_check_sum (spec_biw1_data_word p a v c l) % 16 = 15 := by
  simp only [spec_biw1_data_word, Nat.reducePow]
  generalize hD : p * 16 + a * 256 + v * 1024 + c * 65536 + l * 262144 = D
  have hD16 : D % 16 = 0 := by omega
  have hk := spec_flex_checksum_lt D
  obtain ⟨_, e4, e8, _, _, e16, _, _⟩ := add_low_nibble_div D _ hD16 hk
  obtain ⟨_, e10, _, e18, e21⟩ := add_low_nibble_div_more D _ hD16 hk
  refine ⟨?_, ?_, ?_, ?_, ?_, ?_, ?_, (checksummed_word_valid D hD16).1⟩
  all_goals
    try simp only [and_0xf, and_0x3, and_0x3f, and_0x7, Nat.shiftRight_eq_div_pow,
      Nat.reducePow, e4, e8, e10, e16, e18, e21]
    omega

theorem spec_numeric_vector_fields (v m n c : Nat)
    (h1 : v < 8) (h2 : m < 128) (h3 : n < 8) (h4 : c < 16) :
    (spec_numeric_vector_data_word v m n c >>> 4) &&& 0x7 = v ∧
    (spec_numeric_vector_data_word v m n c >>> 7) &&& 0x7f = m ∧
    (spec_numeric_vector_data_word v m n c >>> 14) &&& 0x7 = n ∧
    (spec_numeric_vector_data_word v m n c >>> 17) &&& 0xf = c ∧
    spec_numeric_vector_data_word v m n c >>> 21 = 0 ∧
    spec_numeric_vector_data_word v m n c < 2 ^ 21 ∧
    flex_check_sum (spec_numeric_vector_data_word v m n c) % 16 = 15 := by
  simp only [spec_numeric_vector_data_word, Nat.reducePow]
  generalize hD : v * 16 + m * 128 + n * 16384 + c * 131072 = D
  have hD16 : D % 16 = 0 := by omega
  have hk := spec_flex_checksum_lt D
  obtain ⟨_, e4, _, _, _, _, e17, _⟩ := add_low_nibble_div D _ hD16 hk
  obtain ⟨e7, _, e14, _, e21⟩ := add_low_nibble_div_more D _ hD16 hk
  refine ⟨?_, ?_, ?_, ?_, ?_, ?_, (checksummed_word_valid D hD16).1⟩
  all_goals
    try simp only [and_0xf, and_0x7f, and_0x7, Nat.shiftRight_eq_div_pow, Nat.reducePow,
      e4, e7, e14, e17, e21]
    omega

theorem spec_fiw_valid (c f r p t : Nat) :
    flex_check_sum (spec_fiw_data_word c f r p t) % 16 = 15 := by
  simp only [spec_fiw_data_word, Nat.reducePow]
  exact (checksummed_word_valid _ (by omega)).1

/-! ## C16 : layout of the block-info and numeric vector words -/

/-- C16: the data word that `make_biw1` hands to `encodeword(reverse_bits32(.))` holds
priority at bits 4-7, blockinfo at bits 8-9, vectorstart at bits 10-15, carryon at bits
16-17, collapse at bits 18-20, the checksum in bits 0-3 and nothing above bit 20; the one
of `make_numeric_vector` holds vector_type at bits 4-6, message_start at bits 7-13, nwords
at bits 14-16, cksum at bits 17-20, the checksum in bits 0-3 and nothing above bit 20.
Each field is recovered by shift and mask as the argument truncated to the field width,
hence as the argument itself when it is within its width. -/
theorem biw1_and_numeric_vector_layout (u : Utils)
    (priority blockinfo vectorstart carryon collapse : Nat)
    (vector_type message_start nwords cksum : Nat) :
    (make_biw1 u priority blockinfo vectorstart carryon collapse
        = u.encodeword (reverse_bits32
            (biw1_dw priority blockinfo vectorstart carryon collapse)) ∧
      biw1_dw priority blockinfo vectorstart carryon collapse
        = spec_biw1_data_word (priority % 16) (blockinfo % 4) (vectorstart % 64)
            (carryon % 4) (collapse % 8) ∧
      (biw1_dw priority blockinfo vectorstart carryon collapse >>> 4) &&& 0xf
        = priority % 16 ∧
      (biw1_dw priority blockinfo vectorstart carryon collapse >>> 8) &&& 0x3
        = blockinfo % 4 ∧
      (biw1_dw priority blockinfo vectorstart carryon collapse >>> 10) &&& 0x3f
        = vectorstart % 64 ∧
      (biw1_dw priority blockinfo vectorstart carryon collapse >>> 16) &&& 0x3
        = carryon % 4 ∧
      (biw1_dw priority blockinfo vectorstart carryon collapse >>> 18) &&& 0x7
        = collapse % 8 ∧
      biw1_dw priority blockinfo vectorstart carryon collapse >>> 21 = 0 ∧
      (priority < 16 → blockinfo < 4 → vectorstart < 64 → carryon < 4 → collapse < 8 →
        biw1_dw priority blockinfo vectorstart carryon collapse
          = spec_biw1_data_word priority blockinfo vectorstart carryon collapse ∧
        (biw1_dw priority blockinfo vectorstart carryon collapse >>> 4) &&& 0xf = priority ∧
        (biw1_dw priority blockinfo vectorstart carryon collapse >>> 8) &&& 0x3 = blockinfo ∧
        (biw1_dw priority blockinfo vectorstart carryon collapse >>> 10) &&& 0x3f
          = vectorstart ∧
        (biw1_dw priority blockinfo vectorstart carryon collapse >>> 16) &&& 0x3 = carryon ∧
        (biw1_dw priority blockinfo vectorstart carryon collapse >>> 18) &&& 0x7
          = collapse)) ∧
    (make_numeric_vector u vector_type message_start nwords cksum
        = u.encodeword (reverse_bits32
            (numeric_vector_dw vector_type message_start nwords cksum)) ∧
      numeric_vector_dw vector_type message_start nwords cksum
        = spec_numeric_vector_data_word (vector_type % 8) (message_start % 128) (nwords % 8)
            (cksum % 16) ∧
      (numeric_vector_dw vector_type message_start nwords cksum >>> 4) &&& 0x7
        = vector_type % 8 ∧
      (numeric_vector_dw vector_type message_start nwords cksum >>> 7) &&& 0x7f
        = message_start % 128 ∧
      (numeric_vector_dw vector_type message_start nwords cksum >>> 14) &&& 0x7
        = nwords % 8 ∧
      (numeric_vector_dw vector_type message_start nwords cksum >>> 17) &&& 0xf
        = cksum % 16 ∧
      numeric_vector_dw vector_type message_start nwords cksum >>> 21 = 0 ∧
      (vector_type < 8 → message_start < 128 → nwords < 8 → cksum < 16 →
        numeric_vector_dw vector_type message_start nwords cksum
          = spec_numeric_vector_data_word vector_type message_start nwords cksum ∧
        (numeric_vector_dw vector_type message_start nwords cksum >>> 4) &&& 0x7
          = vector_type ∧
        (numeric_vector_dw vector_type message_start nwords cksum >>> 7) &&& 0x7f
          = message_start ∧
        (numeric_vector_dw vector_type message_start nwords cksum >>> 14) &&& 0x7 = nwords ∧
        (numeric_vector_dw vector_type message_start nwords cksum >>> 17) &&& 0xf
          = cksum)) := by
  obtain ⟨b1, b2, b3, b4, b5, b6, _, _⟩ :=
    spec_biw1_fields (priority % 16) (blockinfo % 4) (vectorstart % 64) (carryon % 4)
      (collapse % 8) (Nat.mod_lt _ (by decide)) (Nat.mod_lt _ (by decide))
      (Nat.mod_lt _ (by decide)) (Nat.mod_lt _ (by decide)) (Nat.mod_lt _ (by decide))
  obtain ⟨n1, n2, n3, n4, n5, _, _⟩ :=
    spec_numeric_vector_fields (vector_type % 8) (message_start % 128) (nwords % 8)
      (cksum % 16) (Nat.mod_lt _ (by decide)) (Nat.mod_lt _ (by decide))
      (Nat.mod_lt _ (by decide)) (Nat.mod_lt _ (by decide))
  rw [← biw1_dw_eq] at b1 b2 b3 b4 b5 b6
  rw [← numeric_vector_dw_eq] at n1 n2 n3 n4 n5
  refine ⟨⟨rfl, biw1_dw_eq _ _ _ _ _, b1, b2, b3, b4, b5, b6, ?_⟩,
    ⟨rfl, numeric_vector_dw_eq _ _ _ _, n1, n2, n3, n4, n5, ?_⟩⟩
  · intro h1 h2 h3 h4 h5
    rw [Nat.mod_eq_of_lt h1] at b1
    rw [Nat.mod_eq_of_lt h2] at b2
    rw [Nat.mod_eq_of_lt h3] at b3
    rw [Nat.mod_eq_of_lt h4] at b4
    rw [Nat.mod_eq_of_lt h5] at b5
    refine ⟨?_, b1, b2, b3, b4, b5⟩
    rw [biw1_dw_eq, Nat.mod_eq_of_lt h1, Nat.mod_eq_of_lt h2, Nat.mod_eq_of_lt h3,
      Nat.mod_eq_of_lt h4, Nat.mod_eq_of_lt h5]
  · intro h1 h2 h3 h4
    rw [Nat.mod_eq_of_lt h1] at n1
    rw [Nat.mod_eq_of_lt h2] at n2
    rw [Nat.mod_eq_of_lt h3] at n3
    rw [Nat.mod_eq_of_lt h4] at n4
    refine ⟨?_, n1, n2, n3, n4⟩
    rw [numeric_vector_dw_eq, Nat.mod_eq_of_lt h1, Nat.mod_eq_of_lt h2, Nat.mod_eq_of_lt h3,
      Nat.mod_eq_of_lt h4]

/-- Witness for C16: the block-info word and the numeric vector word that
`queue_flex_batch` builds, `make_biw1(0, 0, 2, 0, 0)` and `make_numeric_vector(3, 3, 0, 0)`. -/
theorem biw1_and_numeric_vector_layout_witness :
    biw1_dw 0 0 2 0 0 = spec_biw1_data_word 0 0 2 0 0 ∧
    numeric_vector_dw 3 3 0 0 = spec_numeric_vector_data_word 3 3 0 0 :=
  ⟨((biw1_and_numeric_vector_layout sample_utils 0 0 2 0 0 3 3 0 0).1.2.2.2.2.2.2.2.2
      (by decide) (by decide) (by decide) (by decide) (by decide)).1,
    ((biw1_and_numeric_vector_layout sample_utils 0 0 2 0 0 3 3 0 0).2.2.2.2.2.2.2.2
      (by decide) (by decide) (by decide) (by decide)).1⟩

/-! ## C17 : every data word is below `2^21` and checksum-valid -/

/-- C17: for all arguments of `make_fiw`, `make_biw1` and `make_numeric_vector`, the
checksummed data word passed to `reverse_bits32` is below `2^21`, so that the reversed
word has its 11 low bits clear, and is checksum-valid: its checksum nibble, its four
nibbles at bits 4-19 and its bit 20 add up to 15 modulo 16. -/
theorem data_words_checksum_valid (cycle frame roaming repeat_ t : Nat)
    (priority blockinfo vectorstart carryon collapse : Nat)
    (vector_type message_start nwords cksum : Nat) :
    (fiw_dw cycle frame roaming repeat_ t < 2 ^ 21 ∧
      reverse_bits32 (fiw_dw cycle frame roaming repeat_ t) &&& 0x7FF = 0 ∧
      flex_check_sum (fiw_dw cycle frame roaming repeat_ t) % 16 = 15) ∧
    (biw1_dw priority blockinfo vectorstart carryon collapse < 2 ^ 21 ∧
      reverse_bits32 (biw1_dw priority blockinfo vectorstart carryon collapse) &&& 0x7FF = 0 ∧
      flex_check_sum (biw1_dw priority blockinfo vectorstart carryon collapse) % 16 = 15) ∧
    (numeric_vector_dw vector_type message_start nwords cksum < 2 ^ 21 ∧
      reverse_bits32 (numeric_vector_dw vector_type message_start nwords cksum) &&& 0x7FF
        = 0 ∧
      flex_check_sum (numeric_vector_dw vector_type message_start nwords cksum) % 16 = 15) ∧
    (∀ dw, flex_check_sum dw = (dw &&& 0xf) + ((dw >>> 4) &&& 0xf) + ((dw >>> 8) &&& 0xf)
      + ((dw >>> 12) &&& 0xf) + ((dw >>> 16) &&& 0xf) + ((dw >>> 20) &&& 1)) := by
  have hf := spec_fiw_data_word_lt (cycle % 16) (frame % 128) (roaming % 2) (repeat_ % 2)
    (t % 16) (Nat.mod_lt _ (by decide)) (Nat.mod_lt _ (by decide)) (Nat.mod_lt _ (by decide))
    (Nat.mod_lt _ (by decide)) (Nat.mod_lt _ (by decide))
  have hfv := spec_fiw_valid (cycle % 16) (frame % 128) (roaming % 2) (repeat_ % 2) (t % 16)
  obtain ⟨_, _, _, _, _, _, hb, hbv⟩ :=
    spec_biw1_fields (priority % 16) (blockinfo % 4) (vectorstart % 64) (carryon % 4)
      (collapse % 8) (Nat.mod_lt _ (by decide)) (Nat.mod_lt _ (by decide))
      (Nat.mod_lt _ (by decide)) (Nat.mod_lt _ (by decide)) (Nat.mod_lt _ (by decide))
  obtain ⟨_, _, _, _, _, hn, hnv⟩ :=
    spec_numeric_vector_fields (vector_type % 8) (message_start % 128) (nwords % 8)
      (cksum % 16) (Nat.mod_lt _ (by decide)) (Nat.mod_lt _ (by decide))
      (Nat.mod_lt _ (by decide)) (Nat.mod_lt _ (by decide))
  rw [← fiw_dw_eq] at hf hfv
  rw [← biw1_dw_eq] at hb hbv
  rw [← numeric_vector_dw_eq] at hn hnv
  exact ⟨⟨hf, reverse_bits32_low_clear _ hf, hfv⟩, ⟨hb, reverse_bits32_low_clear _ hb, hbv⟩,
    ⟨hn, reverse_bits32_low_clear _ hn, hnv⟩, fun _ => rfl⟩

theorem and_0x7FF (x : Nat) : x &&& 0x7FF = x % 2048 := and_mask_mod x 11

theorem and_0x3FFFF (x : Nat) : x &&& 0x3FFFF = x % 262144 := and_mask_mod x 18

theorem pocsag_addrtemp_low_clear (capcode functionbits : Nat) :
    pocsag_addrtemp capcode functionbits &&& 0x7FF = 0 := by
  rw [and_0x7FF, pocsag_addrtemp_eq]
  simp only [Nat.reducePow]
  omega

/-! ## C18 : layout of the POCSAG address word -/

/-- C18: for a capcode below `2^21` and a valid message type, the unencoded address word
`addrtemp` of `queue_batch` is computed without 32-bit overflow, has bit 31 clear, holds
the 18-bit value `capcode >> 3` in bits 30-13, the function bits (0 for Numeric, 3 for
Alpha) in bits 12-11 and zeros in bits 10-0; the frame offset is `capcode & 7`, the low 3
bits of the capcode, so that the capcode is 8 times the address field plus the frame
offset. -/
theorem pocsag_address_layout (capcode : Nat) (mt : msgtype_t) (hcap : capcode < 2 ^ 21)
    (hty : mt = .Numeric ∨ mt = .Alpha) :
    pocsag_addrtemp capcode (function_bits mt)
      = ((capcode >>> 3) <<< 13) ||| ((function_bits mt &&& 3) <<< 11) ∧
    ((capcode >>> 3) <<< 13) ||| ((function_bits mt &&& 3) <<< 11) < 2 ^ 32 ∧
    (pocsag_addrtemp capcode (function_bits mt)).testBit 31 = false ∧
    capcode >>> 3 < 2 ^ 18 ∧
    (pocsag_addrtemp capcode (function_bits mt) >>> 13) &&& 0x3FFFF = capcode >>> 3 ∧
    (pocsag_addrtemp capcode (function_bits mt) >>> 11) &&& 3 = function_bits mt ∧
    function_bits .Numeric = 0 ∧ function_bits .Alpha = 3 ∧
    pocsag_addrtemp capcode (function_bits mt) &&& 0x7FF = 0 ∧
    capcode &&& 7 = capcode % 8 ∧
    capcode = 8 * ((pocsag_addrtemp capcode (function_bits mt) >>> 13) &&& 0x3FFFF)
      + (capcode &&& 7) := by
  have hfb : function_bits mt = 0 ∨ function_bits mt = 3 := by
    rcases hty with h | h <;> rw [h]
    · exact Or.inl rfl
    · exact Or.inr rfl
  have hval := pocsag_addrtemp_eq capcode (function_bits mt)
  have hraw : pocsag_addrtemp capcode (function_bits mt)
      = ((capcode >>> 3) <<< 13) ||| ((function_bits mt &&& 3) <<< 11) := by
    rw [pocsag_addrtemp, shl32, shl32, u32, u32, Nat.mod_eq_of_lt, Nat.mod_eq_of_lt]
    · rw [Nat.shiftLeft_eq, and_0x3]
      simp only [Nat.reducePow]
      omega
    · rw [Nat.shiftLeft_eq, Nat.shiftRight_eq_div_pow]
      simp only [Nat.reducePow] at hcap ⊢
      omega
  have hlt : pocsag_addrtemp capcode (function_bits mt) < 2 ^ 31 := by
    rw [hval]
    simp only [Nat.reducePow] at hcap ⊢
    omega
  refine ⟨hraw, ?_, Nat.testBit_lt_two_pow hlt, ?_, ?_, ?_, rfl, rfl,
    pocsag_addrtemp_low_clear _ _, and_0x7 _, ?_⟩
  · rw [← hraw]
    exact Nat.lt_trans hlt (by decide)
  · rw [Nat.shiftRight_eq_div_pow]
    simp only [Nat.reducePow] at hcap ⊢
    omega
  · rw [and_0x3FFFF, hval, Nat.shiftRight_eq_div_pow, Nat.shiftRight_eq_div_pow]
    simp only [Nat.reducePow] at hcap ⊢
    omega
  · rw [and_0x3, hval, Nat.shiftRight_eq_div_pow]
    simp only [Nat.reducePow] at hcap ⊢
    omega
  · rw [and_0x3FFFF, and_0x7, hval, Nat.shiftRight_eq_div_pow]
    simp only [Nat.reducePow] at hcap ⊢
    omega

/-- Witness for C18: the default capcode 425321 with an Alpha message. -/
theorem pocsag_address_layout_witness :
    425321 < 2 ^ 21 ∧
    (pocsag_addrtemp 425321 (function_bits .Alpha) >>> 13) &&& 0x3FFFF = 425321 >>> 3 ∧
    (pocsag_addrtemp 425321 (function_bits .Alpha) >>> 11) &&& 3 = function_bits .Alpha :=
  ⟨by decide,
    (pocsag_address_layout 425321 .Alpha (by decide) (Or.inr rfl)).2.2.2.2.1,
    (pocsag_address_layout 425321 .Alpha (by decide) (Or.inr rfl)).2.2.2.2.2.1⟩

/-! ## C19 : the address-word consistency check cannot fail -/

/-- C19: when `encodeword` keeps the 21 top bits of its argument, the check
`(addrword & 0xFFFFF800) == addrtemp` of `queue_batch` holds for every capcode and all
function bits, `addrtemp` having its 11 low bits clear, so no run of `queue_batch` ends in
the internal-consistency failure; with a valid message type it ends without error. -/
theorem address_check_unreachable (u : Utils) (hu : EncodewordKeepsData u.encodeword) :
    (∀ capcode functionbits : Nat,
      u.encodeword (pocsag_addrtemp capcode functionbits) &&& 0xFFFFF800
        = pocsag_addrtemp capcode functionbits) ∧
    (∀ capcode functionbits : Nat, pocsag_addrtemp capcode functionbits &&& 0x7FF = 0) ∧
    (∀ st : flexencode_impl, (queue_batch u st).1 ≠ some .address_word_check) ∧
    (∀ st : flexencode_impl, st.d_msgtype = .Numeric ∨ st.d_msgtype = .Alpha →
      (queue_batch u st).1 = none) := by
  refine ⟨address_check_passes u hu, pocsag_addrtemp_low_clear, ?_, ?_⟩
  · intro st he
    cases hty : st.d_msgtype with
    | Numeric =>
      rw [queue_batch_eq u hu st (Or.inl hty)] at he
      cases he
    | Alpha =>
      rw [queue_batch_eq u hu st (Or.inr hty)] at he
      cases he
    | unknown v =>
      rw [queue_batch_invalid_type u st v hty] at he
      cases he
  · intro st hty
    rw [queue_batch_eq u hu st hty]

/-- Witness for C19: the sample BCH encoder keeps the data bits, so the check holds for
the capcode `0xFFFFFFFF` with function bits 3. -/
theorem address_check_unreachable_witness :
    EncodewordKeepsData sample_utils.encodeword ∧
    sample_utils.encodeword (pocsag_addrtemp 0xFFFFFFFF 3) &&& 0xFFFFF800
      = pocsag_addrtemp 0xFFFFFFFF 3 :=
  ⟨sample_encodeword_keeps_data,
    (address_check_unreachable sample_utils sample_encodeword_keeps_data).1 0xFFFFFFFF 3⟩

/-! ## Helper lemmas on the frames of the FLEX batch -/

theorem flex_frames_bits_eq_range (u : Utils) (n : Nat) : ∀ frame,
    flex_frames_bits u n frame
      = ((List.range n).map (fun i => flex_frame_bits u (frame + i))).flatten := by
  induction n with
  | zero => intro frame; rw [flex_frames_bits]; rfl
  | succ n ih =>
    intro frame
    have e : ((fun i => flex_frame_bits u (frame + i)) ∘ Nat.succ)
        = (fun i => flex_frame_bits u (frame + 1 + i)) := by
      funext i
      simp only [Function.comp_apply, Nat.succ_eq_add_one]
      rw [Nat.add_assoc, Nat.add_comm 1 i]
    rw [flex_frames_bits, ih, List.range_succ_eq_map, List.map_cons, List.flatten_cons,
      List.map_map, e]
    simp only [Nat.add_zero]

theorem flex_batch_bits_eq (u : Utils) :
    flex_frames_bits u 10 0 = ((List.range 10).map (flex_frame_bits u)).flatten := by
  have e : (fun i => flex_frame_bits u (0 + i)) = flex_frame_bits u := by
    funext i
    rw [Nat.zero_add]
  rw [flex_frames_bits_eq_range, e]

theorem bit_sync_1_length : bit_sync_1.length = 32 := by decide

theorem a1_length : a1.length = 32 := by decide

theorem b_length : b.length = 16 := by decide

theorem a1_inv_length : a1_inv.length = 32 := by decide

theorem cblock_length : cblock.length = 40 := by decide

theorem flex_header_bits_length (u : Utils) (frame : Nat) :
    (flex_header_bits u frame).length = 184 := by
  rw [flex_header_bits]
  simp only [List.length_append, bit_sync_1_length, a1_length, b_length, a1_inv_length,
    cblock_length, word_bits_length]

theorem flex_block_bits_length (u : Utils) : (flex_block_bits u).length = 256 := by
  rw [flex_block_bits]
  simp only [List.length_append, bit_sync_1_length, words_bits_length, List.length_cons,
    List.length_nil]

theorem replicate_flatten_length {α : Type} (n : Nat) (l : List α) :
    (List.replicate n l).flatten.length = n * l.length := by
  induction n with
  | zero => simp
  | succ n ih =>
    rw [List.replicate_succ, List.flatten_cons, List.length_append, ih, Nat.succ_mul,
      Nat.add_comm]

theorem flex_frame_bits_length (u : Utils) (frame : Nat) :
    (flex_frame_bits u frame).length = 3000 := by
  rw [flex_frame_bits, List.length_append, flex_header_bits_length, replicate_flatten_length,
    flex_block_bits_length]

theorem flex_frames_bits_length (u : Utils) (n : Nat) : ∀ frame,
    (flex_frames_bits u n frame).length = 3000 * n := by
  induction n with
  | zero => intro frame; rw [flex_frames_bits]; rfl
  | succ n ih =>
    intro frame
    rw [flex_frames_bits, List.length_append, flex_frame_bits_length, ih]
    omega

theorem queue_flex_batch_queue (u : Utils) (st : flexencode_impl) :
    (queue_flex_batch u st).2.d_bitqueue
      = st.d_bitqueue ++ replicate_bits (st.d_symrate / st.d_baudrate)
          ((List.range 10).map (flex_frame_bits u)).flatten := by
  rw [queue_flex_batch_eq, ← flex_batch_bits_eq]
  exact append_logical_queue st _

theorem queue_flex_batch_ok (u : Utils) (st : flexencode_impl) :
    (queue_flex_batch u st).1 = none := by
  rw [queue_flex_batch_eq]

theorem flex_header_start_length :
    (replicate_bits 4 (bit_sync_1 ++ a1 ++ b ++ a1_inv)).length = 448 := by
  rw [replicate_bits_length]
  decide

theorem swapped_header_start_length :
    (replicate_bits 4 (bit_sync_1 ++ a1 ++ a1_inv ++ b)).length = 448 := by
  rw [replicate_bits_length]
  decide

set_option maxRecDepth 100000 in
theorem flex_header_start_ne_swapped :
    replicate_bits 4 (bit_sync_1 ++ a1 ++ b ++ a1_inv)
      ≠ replicate_bits 4 (bit_sync_1 ++ a1 ++ a1_inv ++ b) := by
  decide

theorem flex_frame_bits_start (u : Utils) (frame : Nat) :
    flex_frame_bits u frame
      = bit_sync_1 ++ a1 ++ b ++ a1_inv ++ word_bits (make_fiw u 0 frame 0 0 0) ++ cblock
        ++ (List.replicate 11 (flex_block_bits u)).flatten := by
  rw [flex_frame_bits, flex_header_bits]

/-! ## C13 : the header of a FLEX frame -/

/-- C13, as stated, fails: in the queue that `queue_flex_batch` fills (default rates,
sample collaborators) the first frame does not begin with bit-sync, A1, inverse of A1, B:
the source queues B before the inverse of A1. -/
theorem flex_header_not_a1_inverse_before_b :
    ¬ ∃ rest,
      (queue_flex_batch sample_utils ⟨1600, 425321, .Alpha, "hello", 6400, []⟩).2.d_bitqueue
        = replicate_bits 4 (bit_sync_1 ++ a1 ++ a1_inv ++ b
            ++ word_bits (make_fiw sample_utils 0 0 0 0 0) ++ cblock ++ rest) := by
  rintro ⟨rest, h⟩
  rw [queue_flex_batch_eq, default_rate_queue, flex_frames_bits, flex_frame_bits_start] at h
  have hl : bit_sync_1 ++ a1 ++ b ++ a1_inv ++ word_bits (make_fiw sample_utils 0 0 0 0 0)
      ++ cblock ++ (List.replicate 11 (flex_block_bits sample_utils)).flatten
      ++ flex_frames_bits sample_utils 9 (0 + 1)
      = (bit_sync_1 ++ a1 ++ b ++ a1_inv) ++ (word_bits (make_fiw sample_utils 0 0 0 0 0)
        ++ cblock ++ (List.replicate 11 (flex_block_bits sample_utils)).flatten
        ++ flex_frames_bits sample_utils 9 (0 + 1)) := by
    simp only [List.append_assoc]
  have hr : bit_sync_1 ++ a1 ++ a1_inv ++ b ++ word_bits (make_fiw sample_utils 0 0 0 0 0)
      ++ cblock ++ rest
      = (bit_sync_1 ++ a1 ++ a1_inv ++ b) ++ (word_bits (make_fiw sample_utils 0 0 0 0 0)
        ++ cblock ++ rest) := by
    simp only [List.append_assoc]
  rw [hl, hr, replicate_bits_append 4 (bit_sync_1 ++ a1 ++ b ++ a1_inv),
    replicate_bits_append 4 (bit_sync_1 ++ a1 ++ a1_inv ++ b)] at h
  have h2 := congrArg (List.take 448) h
  rw [List.take_left' flex_header_start_length,
    List.take_left' swapped_header_start_length] at h2
  exact flex_header_start_ne_swapped h2

/-- C13, amended: `queue_flex_batch` never fails and appends the logical bits of frames
0, ..., 9, each 3000 bits long; frame `f` begins with, in this order: the 32-bit bit-sync
pattern ("10" repeated 16 times), the 32-bit frame-sync word A1
(01111000111100110101100100111001), the 16-bit B sync pattern (0101010101010101), the
bitwise inverse of A1, the 32 bits of the frame-info word `make_fiw(0, f, 0, 0, 0)`, and
the fixed 40-bit control-block pattern. -/
theorem flex_frame_header_order (u : Utils) (st : flexencode_impl) :
    (queue_flex_batch u st).1 = none ∧
    (queue_flex_batch u st).2.d_bitqueue
      = st.d_bitqueue ++ replicate_bits (st.d_symrate / st.d_baudrate)
          ((List.range 10).map (flex_frame_bits u)).flatten ∧
    (∀ f, (flex_frame_bits u f).length = 3000 ∧
      ∃ rest, flex_frame_bits u f
        = bit_sync_1 ++ a1 ++ b ++ a1_inv ++ word_bits (make_fiw u 0 f 0 0 0) ++ cblock
          ++ rest) ∧
    bit_sync_1 = (List.replicate 16 [true, false]).flatten ∧
    a1 = word_bits 0x78F35939 ∧
    b = (List.replicate 8 [false, true]).flatten ∧
    a1_inv = a1.map (fun x => !x) ∧
    cblock = (word_bits 0xAED84512).append ((word_bits 0x7B).drop 24) ∧
    cblock.length = 40 := by
  refine ⟨queue_flex_batch_ok u st, queue_flex_batch_queue u st, ?_, by decide, by decide,
    by decide, by decide, by decide, by decide⟩
  intro f
  exact ⟨flex_frame_bits_length u f, _, flex_frame_bits_start u f⟩

theorem fiw_dw_frame (f : Nat) (hf : f < 10) : fiw_dw 0 f 0 0 0 = (f <<< 8) ||| (15 - f) := by
  have e : (f <<< 8) ||| (15 - f) = f * 2 ^ 8 + (15 - f) := by
    rw [Nat.shiftLeft_eq]
    apply or_low_eq_add _ _ 4
    · simp only [Nat.reducePow]; omega
    · simp only [Nat.reducePow]; omega
  rw [e, fiw_dw_eq, spec_fiw_data_word, spec_flex_checksum]
  simp only [Nat.reducePow]
  omega

/-! ## C14 : the blocks of a FLEX frame -/

/-- C14: `queue_flex_batch` never fails, the address 1337331 it passes to
`make_short_address` being within 32769..1966080; every frame it appends carries, after
the header that ends with the control-block pattern, exactly 11 blocks, each block being
in this order: `make_biw1(0, 0, 2, 0, 0)`, `make_short_address(1337331)`,
`make_numeric_vector(3, 3, 0, c)`, the message codeword `encodeword(reverse_bits32(msgx))`
and four repetitions of the 32-bit bit-sync pattern, with `c = 0` and `msgx = 0x3325B` as
the code computes them. -/
theorem flex_frame_blocks (u : Utils) (st : flexencode_impl) :
    (queue_flex_batch u st).1 = none ∧
    (32769 ≤ 1337331 ∧ 1337331 ≤ 1966080) ∧
    make_short_address u 1337331 = .ok (u.encodeword (reverse_bits32 1337331)) ∧
    (queue_flex_batch u st).2.d_bitqueue
      = st.d_bitqueue ++ replicate_bits (st.d_symrate / st.d_baudrate)
          ((List.range 10).map (flex_frame_bits u)).flatten ∧
    (∀ f, flex_frame_bits u f
      = (bit_sync_1 ++ a1 ++ b ++ a1_inv ++ word_bits (make_fiw u 0 f 0 0 0) ++ cblock)
        ++ (List.replicate 11
            (word_bits (make_biw1 u 0 0 2 0 0)
              ++ word_bits (u.encodeword (reverse_bits32 1337331))
              ++ word_bits (make_numeric_vector u 3 3 0 0)
              ++ word_bits (u.encodeword (reverse_bits32 0x3325B))
              ++ bit_sync_1 ++ bit_sync_1 ++ bit_sync_1 ++ bit_sync_1)).flatten) ∧
    flex_msg_checksum &&& 0xf = 0 ∧
    flex_msgx = 0x3325B ∧
    bit_sync_1 = (List.replicate 16 [true, false]).flatten := by
  have hc : flex_msg_checksum &&& 0xf = 0 := by decide
  have hm : flex_msgx = 0x3325B := by decide
  refine ⟨queue_flex_batch_ok u st, by decide, make_short_address_flex u,
    queue_flex_batch_queue u st, ?_, hc, hm, by decide⟩
  intro f
  rw [flex_frame_bits, flex_header_bits, flex_block_bits, hc, hm]
  simp only [words_bits_cons, words_bits_nil, List.append_nil, List.append_assoc]

/-! ## C20 : size of the FLEX batch -/

/-- C20: `queue_flex_batch` on an empty queue never fails and queues exactly 10 frames,
for the frame numbers 0, 1, ..., 9 in this order with cycle 0, the frame-info data word
of frame `f` being `(f << 8) | (15 - f)`; every frame is 3000 logical bits, 184 header
bits and 11 blocks of 256 bits, so the batch is 30000 logical bits, that is
`30000 * (d_symrate / d_baudrate)` queue entries, 120000 at the rates 1600 and 6400. -/
theorem flex_batch_size (u : Utils) (st : flexencode_impl) (hq : st.d_bitqueue = []) :
    (queue_flex_batch u st).1 = none ∧
    (queue_flex_batch u st).2.d_bitqueue
      = replicate_bits (st.d_symrate / st.d_baudrate)
          ((List.range 10).map (flex_frame_bits u)).flatten ∧
    ((List.range 10).map (flex_frame_bits u)).length = 10 ∧
    (∀ f, f < 10 →
      fiw_dw 0 f 0 0 0 = (f <<< 8) ||| (15 - f) ∧
      make_fiw u 0 f 0 0 0 = u.encodeword (reverse_bits32 ((f <<< 8) ||| (15 - f)))) ∧
    (∀ f, flex_frame_bits u f
        = (bit_sync_1 ++ a1 ++ b ++ a1_inv ++ word_bits (make_fiw u 0 f 0 0 0) ++ cblock)
          ++ (List.replicate 11 (flex_block_bits u)).flatten ∧
      (bit_sync_1 ++ a1 ++ b ++ a1_inv ++ word_bits (make_fiw u 0 f 0 0 0) ++ cblock).length
        = 184 ∧
      (flex_block_bits u).length = 256 ∧
      (flex_frame_bits u f).length = 3000) ∧
    ((List.range 10).map (flex_frame_bits u)).flatten.length = 30000 ∧
    (queue_flex_batch u st).2.d_bitqueue.length = 30000 * (st.d_symrate / st.d_baudrate) ∧
    (st.d_baudrate = 1600 → st.d_symrate = 6400 →
      (queue_flex_batch u st).2.d_bitqueue.length = 120000) := by
  have hqueue : (queue_flex_batch u st).2.d_bitqueue
      = replicate_bits (st.d_symrate / st.d_baudrate)
          ((List.range 10).map (flex_frame_bits u)).flatten := by
    rw [queue_flex_batch_queue, hq, List.nil_append]
  have hlen : ((List.range 10).map (flex_frame_bits u)).flatten.length = 30000 := by
    rw [← flex_batch_bits_eq, flex_frames_bits_length]
  have hqlen : (queue_flex_batch u st).2.d_bitqueue.length
      = 30000 * (st.d_symrate / st.d_baudrate) := by
    rw [hqueue, replicate_bits_length, hlen, Nat.mul_comm]
  refine ⟨queue_flex_batch_ok u st, hqueue, ?_, ?_, ?_, hlen, hqlen, ?_⟩
  · rw [List.length_map, List.length_range]
  · intro f hf
    refine ⟨fiw_dw_frame f hf, ?_⟩
    rw [make_fiw, fiw_dw_frame f hf]
  · intro f
    refine ⟨by rw [flex_frame_bits, flex_header_bits], ?_, flex_block_bits_length u,
      flex_frame_bits_length u f⟩
    have := flex_header_bits_length u f
    rw [flex_header_bits] at this
    exact this
  · intro hb hs
    rw [hqlen, hb, hs]

/-- Witness for C20: the encoder state that the source constructor sets up, with the
sample collaborators. -/
theorem flex_batch_size_witness :
    (queue_flex_batch sample_utils ⟨1600, 425321, .Alpha, "hello", 6400, []⟩).2.d_bitqueue.length
      = 120000 :=
  (flex_batch_size sample_utils ⟨1600, 425321, .Alpha, "hello", 6400, []⟩ rfl).2.2.2.2.2.2.2
    rfl rfl

end Mixalot
